import Mathlib

/-!
# Verification of the whatsapp-mcp ingestion/persistence/query core

Shallow embedding, translated from the Go sources, of:

* the Ogg-Opus analyser (`internal/media`, `AnalyzeOggOpus` and
  `placeholderWaveform`),
* the SQLite-backed store (tables `chats`, `messages`, the external-content
  FTS5 index `messages_fts` and its triggers, as installed by `migrate` in
  `internal/store/store.go`),
* the sync handlers (`handleMessage`, `handleHistorySync` in `internal/wa`),
* the query layer (`SearchMessages` in `internal/store/queries.go`, the
  service-level validation in `internal/service`),
* the recipient resolver (`ResolveRecipient` in `internal/wa`),
* the media download precondition check (`DownloadMedia` in
  `internal/wa/messaging.go`).

Machine integers are modelled as `Nat`/`Int` with explicit wrap-around where
Go wraps; Go `float64` arithmetic is idealised as exact arithmetic (`ℚ`/`ℝ`);
external library behaviour (whatsmeow contact/group directory, JID parsing,
the FTS5 query parser, the seeded math/rand stream) is passed in as explicit
function parameters.
-/

namespace WaMcp

/-! ## Ogg-Opus analyser (`internal/media`, AnalyzeOggOpus)

Bytes are modelled as `List Nat`; the top-level entry point reduces every
entry mod 256, so the reads below see genuine byte values. -/

/-- Decidable equality for `Except`, used to evaluate the fixtures. -/
instance instDecEqExcept {e a : Type} [DecidableEq e] [DecidableEq a] :
    DecidableEq (Except e a) := fun x y =>
  match x, y with
  | .error e1, .error e2 =>
    if h : e1 = e2 then isTrue (by rw [h]) else isFalse (fun hc => by cases hc; exact h rfl)
  | .ok v1, .ok v2 =>
    if h : v1 = v2 then isTrue (by rw [h]) else isFalse (fun hc => by cases hc; exact h rfl)
  | .error _, .ok _ => isFalse (fun hc => by cases hc)
  | .ok _, .error _ => isFalse (fun hc => by cases hc)

/-- The bytes of the page magic `"OggS"`. -/
def oggMagic : List Nat := [79, 103, 103, 83]

/-- The bytes of the header magic `"OpusHead"`. -/
def opusHeadMagic : List Nat := [79, 112, 117, 115, 72, 101, 97, 100]

/-- `binary.LittleEndian` read of `k` bytes starting at offset `off`
(missing bytes read as 0; the Go code only reads in-bounds, see the guards
in `oggLoop`). -/
def readLE (data : List Nat) (off : Nat) : Nat → Nat
  | 0 => 0
  | k + 1 => data.getD off 0 + 256 * readLE data (off + 1) k

/-- Sum of the `n` segment-table entries starting at offset `off`
(`for _, seg := range segmentTable { pageSize += int(seg) }`). -/
def segSum (data : List Nat) (off n : Nat) : Nat :=
  ((data.drop off).take n).foldr (· + ·) 0

/-- The mutable locals of `AnalyzeOggOpus`'s page loop:
`lastGranule` (uint64), `sampleRate` (uint32, initially 48000),
`preSkip` (uint16, initially 0), `foundHead`. -/
structure OggState where
  lastGranule : Nat
  sampleRate : Nat
  preSkip : Nat
  foundHead : Bool
deriving Repr, DecidableEq

/-- Initial loop state: `lastGranule = 0`, `sampleRate = 48000`,
`preSkip = 0`, `foundHead = false`. -/
def initOggState : OggState := ⟨0, 48000, 0, false⟩

/-- Result of the page loop: either the final state, or a Go runtime panic
from the slice expression `data[i : i+pageSize]` when the page extends past
the end of the input (`i+pageSize > len(data)`, slice bounds out of range). -/
inductive OggLoopResult where
  | sliceOob
  | done (st : OggState)
deriving Repr, DecidableEq

/-- First index at which `pat` occurs in the list (`bytes.Index`). -/
def findSub (pat : List Nat) : List Nat → Option Nat
  | [] => if pat = [] then some 0 else none
  | h :: t =>
    if pat.isPrefixOf (h :: t) then some 0
    else (findSub pat t).map (· + 1)

/-- One conditional step of the `OpusHead` search: executed when
`!foundHead && pageSeqNum <= 1`.  Returns `none` for the out-of-range page
slice, otherwise the (possibly updated) state.  Field layout per the code
comment `Magic(8) + Version(1) + Channels(1) + PreSkip(2) + SampleRate(4)`:
pre-skip at `pos+10` (2 bytes LE), sample rate at `pos+12` (4 bytes LE). -/
def opusHeadStep (data : List Nat) (i pageSize : Nat) (st : OggState) :
    Option OggState :=
  if i + pageSize > data.length then none
  else
    let pageData := (data.drop i).take pageSize
    match findSub opusHeadMagic pageData with
    | some pos =>
      if pos + 16 ≤ pageData.length then
        if pos + 8 + 10 + 6 ≤ pageData.length then
          some { st with
                  preSkip := readLE pageData (pos + 10) 2
                  sampleRate := readLE pageData (pos + 12) 4
                  foundHead := true }
        else some st
      else some st
    | none => some st

/-- The page loop of `AnalyzeOggOpus` (`for i := 0; i < len(data);`).
`i` strictly increases each iteration (`i++` or `i += pageSize` with
`pageSize ≥ 27`) and the loop breaks once `i+27 ≥ len(data)`, so fuel
`data.length + 1` (supplied by `analyzeOggOpus`) never runs out. -/
def oggLoop (data : List Nat) : Nat → Nat → OggState → OggLoopResult
  | 0, _, st => .done st
  | fuel + 1, i, st =>
    if i + 27 ≥ data.length then .done st
    else if (data.drop i).take 4 ≠ oggMagic then oggLoop data fuel (i + 1) st
    else
      let granulePos := readLE data (i + 6) 8
      let pageSeqNum := readLE data (i + 18) 4
      let numSegments := data.getD (i + 26) 0
      if i + 27 + numSegments ≥ data.length then .done st
      else
        let pageSize := 27 + numSegments + segSum data (i + 27) numSegments
        let headStep :=
          if ¬ st.foundHead ∧ pageSeqNum ≤ 1 then
            opusHeadStep data i pageSize st
          else some st
        match headStep with
        | none => .sliceOob
        | some st1 =>
          let st2 := if granulePos ≠ 0 then { st1 with lastGranule := granulePos } else st1
          oggLoop data fuel (i + pageSize) st2

/-- `2^64`, the modulus of Go's `uint64` arithmetic. -/
def U64 : Nat := 2 ^ 64

/-- Exact ceiling division on naturals (`0` when the divisor is `0`,
matching the idealisation of the float division noted below). -/
def ceilDiv (a b : Nat) : Nat := (a + b - 1) / b

/-- The duration computation at the end of `AnalyzeOggOpus`, idealising the
`float64` arithmetic as exact: `lastGranule-uint64(preSkip)` wraps modulo
`2^64` (Go unsigned subtraction), the division-plus-`math.Ceil` is exact
ceiling division (division by a zero sample rate is modelled as 0 before the
clamp), and `uint32(float64(len(data))/2000.0)` is exact floor division;
then the two clamps `<1 → 1` and `>300 → 300` are applied in source order. -/
def oggDuration (st : OggState) (len : Nat) : Nat :=
  let duration :=
    if st.lastGranule > 0 then
      ceilDiv ((st.lastGranule + (U64 - st.preSkip % U64)) % U64) st.sampleRate
    else len / 2000
  let duration := if duration < 1 then 1 else duration
  if duration > 300 then 300 else duration

/-- Result of `AnalyzeOggOpus`: the `"not an Ogg file"` error, a runtime
panic from an out-of-range page slice, or a duration (the accompanying
waveform is `placeholderWaveform duration`). -/
inductive OggAnalysis where
  | notOgg
  | sliceOob
  | ok (duration : Nat)
deriving Repr, DecidableEq

/-- The final state of the page loop over the (byte-normalised) input. -/
def oggFinalState (raw : List Nat) : OggLoopResult :=
  let data := raw.map (· % 256)
  oggLoop data (data.length + 1) 0 initOggState

/-- `AnalyzeOggOpus` (`internal/media`): magic check, page loop, duration. -/
def analyzeOggOpus (raw : List Nat) : OggAnalysis :=
  let data := raw.map (· % 256)
  if data.length < 4 ∨ data.take 4 ≠ oggMagic then .notOgg
  else
    match oggFinalState raw with
    | .sliceOob => .sliceOob
    | .done st => .ok (oggDuration st data.length)

/-- The duration formula exactly as claim C5 states it: mathematical
subtraction `last_granule − pre_skip` (no unsigned wrap-around), exact
ceiling of the division, fallback `len/2000`, clamped to `[1, 300]`. -/
def claimDuration (st : OggState) (len : Nat) : Nat :=
  let d : ℤ :=
    if st.lastGranule > 0 then
      ⌈((st.lastGranule : ℚ) - (st.preSkip : ℚ)) / (st.sampleRate : ℚ)⌉
    else ((len / 2000 : Nat) : ℤ)
  (max 1 (min d 300)).toNat

/-- The amended duration formula: as claim C5, except that the subtraction
`lastGranule - uint64(preSkip)` wraps modulo `2^64` as in Go's unsigned
arithmetic (so a pre-skip exceeding the last granule yields a huge value
that the upper clamp turns into 300, not the 1 the original claim implies). -/
def amendedDuration (st : OggState) (len : Nat) : Nat :=
  if st.lastGranule = 0 then min (max (len / 2000) 1) 300
  else
    min (max (ceilDiv ((st.lastGranule + (U64 - st.preSkip % U64)) % U64) st.sampleRate) 1) 300

/-! ## Waveform generator (`internal/media`, placeholderWaveform)

Go `float64` arithmetic is idealised as exact real arithmetic; `math.Sin`
is `Real.sin`.  The only genuine abstraction is the process-global
`math/rand` source: the function begins with `rand.Seed(int64(duration))`,
after which the i-th `rand.Float64()` draw is a pure function of the seed
and the draw index, modelled as the parameter `randStream duration i`.
`byte(val)` on the clamped non-negative value is truncation, i.e. floor. -/

/-- `placeholderWaveform` (`internal/media`): 64 values, each the clamped
combination of two sine terms, a seeded random perturbation and an envelope. -/
noncomputable def placeholderWaveform (randStream : ℕ → ℕ → ℝ) (duration : ℕ) :
    List ℕ :=
  let base : ℝ := 35
  let freq : ℝ := ((min duration 120 : ℕ) : ℝ) / 30
  (List.range 64).map (fun (i : ℕ) =>
    let pos : ℝ := (i : ℝ) / 64
    let val := base * Real.sin (pos * Real.pi * freq * 8) +
      (base / 2) * Real.sin (pos * Real.pi * freq * 16)
    let val := val + (randStream duration i - 0.5) * 15
    let val := val * (0.7 + 0.3 * Real.sin (pos * Real.pi)) + 50
    let val := if val < 0 then 0 else if val > 100 then 100 else val
    ⌊val⌋.toNat)

/-! ## SQLite store (`internal/store/store.go`, migrate)

State after `migrate`: table `chats(jid PRIMARY KEY, name, last_message_time)`,
table `messages(... PRIMARY KEY (id, chat_jid))` with an implicit rowid, and
the external-content FTS5 table `messages_fts(content)` maintained by an
AFTER INSERT trigger (adds `(new.rowid, new.content)`), an AFTER DELETE
trigger and an AFTER UPDATE trigger.  `last_message_time` and `timestamp`
are modelled as integers (Unix seconds); `NULL` columns as `Option`. -/

/-- A row of `chats`. -/
structure ChatRow where
  jid : String
  name : Option String
  lastMessageTime : Option Int
deriving Repr, DecidableEq

/-- The media-descriptor columns shared by both extractors and both insert
sites (`extractMediaInfo` results). -/
structure MediaInfo where
  mediaType : String
  filename : String
  url : String
  mediaKey : List Nat
  fileSha256 : List Nat
  fileEncSha256 : List Nat
  fileLength : Nat
deriving Repr, DecidableEq

/-- An absent media descriptor (`"" ,"", "", nil, nil, nil, 0`). -/
def MediaInfo.empty : MediaInfo := ⟨"", "", "", [], [], [], 0⟩

/-- A row of `messages`, together with its SQLite rowid. -/
structure MsgRow where
  rowid : Nat
  id : String
  chatJid : String
  sender : String
  content : String
  timestamp : Int
  isFromMe : Bool
  media : MediaInfo
deriving Repr, DecidableEq

/-- The persistent store: the two tables plus the FTS index, the latter as
the list of `(rowid, content)` entries inserted by the triggers. -/
structure Store where
  chats : List ChatRow
  messages : List MsgRow
  fts : List (Nat × String)
deriving Repr, DecidableEq

/-- The empty store, as left by `migrate` on a fresh database. -/
def Store.empty : Store := ⟨[], [], []⟩

/-- Largest rowid in use (0 when the table is empty). -/
def maxRowid (ms : List MsgRow) : Nat := ms.foldr (fun m acc => max m.rowid acc) 0

/-- `INSERT OR REPLACE INTO messages ...`.  SQLite REPLACE conflict
resolution deletes the rows conflicting on the `(id, chat_jid)` primary key
and performs the insert with a fresh rowid (max+1).  Crucially, per the
SQLite documentation the deletion performed by REPLACE fires delete
triggers only when `recursive_triggers` is enabled — the store is opened
with only `_foreign_keys=on`, so `messages_ad` does NOT fire and the old
FTS entry stays behind; the AFTER INSERT trigger `messages_ai` then appends
`(new.rowid, new.content)` to the index. -/
def insertOrReplaceMessage (st : Store) (id chatJid sender content : String)
    (ts : Int) (fromMe : Bool) (media : MediaInfo) : Store :=
  let remaining := st.messages.filter (fun r => ¬(r.id = id ∧ r.chatJid = chatJid))
  let rid := maxRowid remaining + 1
  let row : MsgRow := ⟨rid, id, chatJid, sender, content, ts, fromMe, media⟩
  { st with messages := remaining ++ [row], fts := st.fts ++ [(rid, content)] }

/-- `INSERT OR REPLACE INTO chats (jid, name, last_message_time)`: rows
conflicting on the `jid` primary key are replaced wholesale. -/
def insertOrReplaceChat (st : Store) (jid : String) (name : Option String)
    (t : Option Int) : Store :=
  { st with chats := st.chats.filter (fun c => c.jid ≠ jid) ++ [⟨jid, name, t⟩] }

/-- Plain `INSERT INTO chats (jid, name)`: on a primary-key conflict the
statement fails and the caller discards the error (`_, _ = ...Exec`), so it
is a no-op when a row for `jid` already exists; otherwise the new row has a
NULL `last_message_time`. -/
def insertChatIfAbsent (st : Store) (jid : String) (name : String) : Store :=
  if st.chats.any (fun c => c.jid = jid) then st
  else { st with chats := st.chats ++ [⟨jid, some name, none⟩] }

/-- `UPDATE chats SET name = ? WHERE jid = ?`. -/
def updateChatName (st : Store) (jid name : String) : Store :=
  { st with chats := st.chats.map (fun c => if c.jid = jid then { c with name := some name } else c) }

/-- `SELECT name FROM chats WHERE jid = ?` scanned into a `sql.NullString`:
`none` when no row exists, `some c.name` otherwise (the inner `Option` is
the column's NULL-ness). -/
def chatName? (st : Store) (jid : String) : Option (Option String) :=
  (st.chats.find? (fun c => c.jid = jid)).map (·.name)

/-- `last_message_time` of the chat row for `jid`, when the row exists. -/
def chatLastTime (st : Store) (jid : String) : Option (Option Int) :=
  (st.chats.find? (fun c => c.jid = jid)).map (·.lastMessageTime)

/-! ## Sync engine (`internal/wa`, handleMessage / handleHistorySync)

External whatsmeow behaviour is a parameter record `NameEnv`: the group
directory (`GetGroupInfo`), the contact directory (`GetContact`), JID
parsing (`types.ParseJID`, exposed as the user part on success), and the
paired account's own user id (`c.WA.Store.ID`). -/

/-- A parsed `types.JID` (user and server part). -/
structure Jid where
  user : String
  server : String
deriving Repr, DecidableEq

/-- `types.JID.String()` for the plain user@server form. -/
def Jid.str (j : Jid) : String := j.user ++ "@" ++ j.server

/-- `GetContact` result fields used by the name cascade. -/
structure ContactInfo where
  fullName : String
  businessName : String
  pushName : String
deriving Repr, DecidableEq

/-- External directory/parsing behaviour consumed by the sync engine. -/
structure NameEnv where
  groupName : String → Option String
  contact : String → Option ContactInfo
  parseJid : String → Option Jid
  selfUser : Option String

/-- Conversation metadata fields read (via reflection) by `getChatName`:
`DisplayName` and `Name`, each an optional string pointer. -/
structure ConvMeta where
  displayName : Option String
  metaName : Option String
deriving Repr, DecidableEq

/-- `resolvePreferredName` (`internal/wa`): group name or `"Group <user>"`
for group JIDs, else contact full/business/push name, else the user part. -/
def resolvePreferredName (env : NameEnv) (j : Jid) : String :=
  if j.server = "g.us" then
    match env.groupName j.str with
    | some n => if n ≠ "" then n else "Group " ++ j.user
    | none => "Group " ++ j.user
  else
    match env.contact j.str with
    | some c =>
      if c.fullName ≠ "" then c.fullName
      else if c.businessName ≠ "" then c.businessName
      else if c.pushName ≠ "" then c.pushName
      else j.user
    | none => j.user

/-- `getChatName` (`internal/wa`): stored name, then conversation metadata
(`DisplayName`, `Name`), then group/contact directory, then the fallback
sender, then the user part.  The stored name is used only when the row
exists and the column is non-NULL and non-empty (`existing.Valid &&
existing.String != ""`). -/
def getChatName (env : NameEnv) (st : Store) (j : Jid) (chatJid : String)
    (conv : Option ConvMeta) (sender : String) : String :=
  let stored :=
    match chatName? st chatJid with
    | some (some n) => if n ≠ "" then some n else none
    | _ => none
  match stored with
  | some n => n
  | none =>
    let fromMeta :=
      match conv with
      | some m =>
        match m.displayName with
        | some dn => if dn ≠ "" then some dn else
            (match m.metaName with
             | some n => if n ≠ "" then some n else none
             | none => none)
        | none =>
          match m.metaName with
          | some n => if n ≠ "" then some n else none
          | none => none
      | none => none
    match fromMeta with
    | some n => n
    | none =>
      if j.server = "g.us" then
        match env.groupName j.str with
        | some n => if n ≠ "" then n else "Group " ++ j.user
        | none => "Group " ++ j.user
      else
        match env.contact j.str with
        | some c =>
          if c.fullName ≠ "" then c.fullName
          else if c.businessName ≠ "" then c.businessName
          else if c.pushName ≠ "" then c.pushName
          else (if sender ≠ "" then sender else j.user)
        | none => if sender ≠ "" then sender else j.user

/-- The per-sender chat upsert shared by both handlers: look up the name of
`<sender>@s.whatsapp.net`; when the row is missing (or its name is NULL),
plain-insert `(jid, resolvePreferredName)`; when the row exists with an
empty (non-NULL) name and the resolver yields something non-empty, update
the name. -/
def ensureSenderChat (env : NameEnv) (st : Store) (senderUser : String) : Store :=
  match chatName? st (Jid.str ⟨senderUser, "s.whatsapp.net"⟩) with
  | some (some n) =>
    if n = "" then
      if resolvePreferredName env ⟨senderUser, "s.whatsapp.net"⟩ ≠ "" then
        updateChatName st (Jid.str ⟨senderUser, "s.whatsapp.net"⟩)
          (resolvePreferredName env ⟨senderUser, "s.whatsapp.net"⟩)
      else st
    else st
  | _ =>
    insertChatIfAbsent st (Jid.str ⟨senderUser, "s.whatsapp.net"⟩)
      (resolvePreferredName env ⟨senderUser, "s.whatsapp.net"⟩)

/-- A real-time `events.Message`, after the pure extractors have run:
`content = extractTextContent(...)` and `media = extractMediaInfo(...)`. -/
structure MsgEvent where
  chat : Jid
  senderUser : String
  id : String
  ts : Int
  fromMe : Bool
  content : String
  media : MediaInfo
deriving Repr, DecidableEq

/-- Steps 4–5 of `handleMessage`: upsert the chat row for the event's chat
with the resolved name and the event timestamp, then insert-or-replace the
message row (the FTS trigger fires inside `insertOrReplaceMessage`). -/
def handleMessageStore (env : NameEnv) (st1 : Store) (ev : MsgEvent) : Store :=
  insertOrReplaceMessage
    (insertOrReplaceChat st1 ev.chat.str
      (some (getChatName env st1 ev.chat ev.chat.str none ev.senderUser))
      (some ev.ts))
    ev.id ev.chat.str ev.senderUser ev.content ev.ts ev.fromMe ev.media

/-- `handleMessage` (`internal/wa`): drop when both text and media type are
empty; ensure the per-sender chat row; then upsert chat and message. -/
def handleMessage (env : NameEnv) (st : Store) (ev : MsgEvent) : Store :=
  if ev.content = "" ∧ ev.media.mediaType = "" then st
  else
    handleMessageStore env
      (if ev.senderUser ≠ "" then ensureSenderChat env st ev.senderUser else st) ev

/-- A history-sync message key (`m.Message.Key`, nil-able fields). -/
structure KeyData where
  fromMe : Option Bool
  participant : Option String
  id : Option String
deriving Repr, DecidableEq

/-- A history-sync message; a `nil` entry (or nil inner message) in
`conv.Messages` is modelled as `none` in the conversation's list.  `ts` is
`GetMessageTimestamp()`. -/
structure HistMsg where
  text : String
  media : MediaInfo
  key : Option KeyData
  ts : Int
deriving Repr, DecidableEq

/-- A history-sync conversation: the raw id string (used verbatim as
`chat_jid` in every statement) and the reflection-visible metadata. -/
structure HistConv where
  rawJid : String
  meta : ConvMeta
  messages : List (Option HistMsg)
deriving Repr, DecidableEq

/-- `strings.Contains(s, "@")`, over the character list (kernel-reducible,
identical to the byte search since `@` is ASCII). -/
def hasAtSign (s : String) : Bool := s.toList.contains '@'

/-- Index of the first `'@'` in a string, over characters. -/
def firstAtIdx (s : String) : Option Nat :=
  (s.toList.findIdx? (· = '@'))

/-- The sender normalisation of `handleHistorySync`: if the sender string
contains `'@'`, replace it by the parsed user part, or — when parsing
fails — by the prefix before the first `'@'` provided that index is
positive. -/
def normalizeSender (env : NameEnv) (snd : String) : String :=
  if hasAtSign snd then
    match env.parseJid snd with
    | some pj => pj.user
    | none =>
      match firstAtIdx snd with
      | some i => if i > 0 then ⟨snd.toList.take i⟩ else snd
      | none => snd
  else snd

/-- The `fromMe` flag of a history-sync message: `false` unless the key is
present and carries an explicit value. -/
def histFromMe (m : HistMsg) : Bool :=
  match m.key with
  | some k => k.fromMe.getD false
  | none => false

/-- The raw sender of a history-sync message, before normalisation: the
conversation's user part, overridden by a non-empty participant for
incoming messages and by the own account id for outgoing ones. -/
def histRawSender (env : NameEnv) (chatUser : String) (m : HistMsg) : String :=
  match m.key with
  | some k =>
    let s := if histFromMe m = false ∧ k.participant.getD "" ≠ "" then k.participant.getD ""
      else chatUser
    if histFromMe m = true then (match env.selfUser with | some u => u | none => s) else s
  | none => chatUser

/-- The message id from the key (empty when absent). -/
def histMsgId (m : HistMsg) : String :=
  match m.key with
  | some k => k.id.getD ""
  | none => ""

/-- The per-sender chat upsert of the history path, executed only for
non-self messages with a non-empty normalised sender. -/
def histSenderStep (env : NameEnv) (st : Store) (fromMe : Bool) (snd : String) : Store :=
  if fromMe = false ∧ snd ≠ "" then ensureSenderChat env st snd else st

/-- The store mutations for one non-skipped history message: the per-sender
upsert, then — unless the timestamp is zero — the message insert. -/
def processHistMsgStore (env : NameEnv) (chatJid : String) (st : Store) (m : HistMsg)
    (fromMe : Bool) (snd : String) : Store :=
  if m.ts = 0 then histSenderStep env st fromMe snd
  else
    insertOrReplaceMessage (histSenderStep env st fromMe snd) (histMsgId m) chatJid snd
      m.text m.ts fromMe m.media

/-- Processing of one entry of `conv.Messages` inside `handleHistorySync`:
skip nils and text-and-media-empty messages; compute `fromMe` and the
sender from the key (participant for incoming, own user id for outgoing);
normalise the sender; ensure the per-sender chat row for non-self senders;
skip zero timestamps; insert-or-replace the message row. -/
def processHistMsg (env : NameEnv) (chatJid chatUser : String) (st : Store)
    (entry : Option HistMsg) : Store :=
  match entry with
  | none => st
  | some m =>
    if m.text = "" ∧ m.media.mediaType = "" then st
    else
      processHistMsgStore env chatJid st m (histFromMe m)
        (normalizeSender env (histRawSender env chatUser m))

/-- The chat upsert of one history conversation: when the first listed
message exists and carries a nonzero timestamp, upsert the chat row with
the resolved name (conversation metadata supplied) and that timestamp. -/
def convChatStep (env : NameEnv) (st : Store) (conv : HistConv) (jid : Jid) : Store :=
  match conv.messages.head? with
  | some (some m) =>
    if m.ts ≠ 0 then
      insertOrReplaceChat st conv.rawJid
        (some (getChatName env st jid conv.rawJid (some conv.meta) "")) (some m.ts)
    else st
  | _ => st

/-- Processing of one conversation inside `handleHistorySync`: skip
unparsable ids; upsert the chat row; then store each message. -/
def processConv (env : NameEnv) (st : Store) (conv : HistConv) : Store :=
  match env.parseJid conv.rawJid with
  | none => st
  | some jid =>
    conv.messages.foldl (processHistMsg env conv.rawJid jid.user)
      (convChatStep env st conv jid)

/-- `handleHistorySync` (`internal/wa`): fold the conversation list. -/
def handleHistorySync (env : NameEnv) (st : Store) (convs : List HistConv) : Store :=
  convs.foldl (processConv env) st

/-- `tsCovered ts o` holds when the optional chat timestamp `o` is present
and at least `ts`. -/
def tsCovered (ts : Int) : Option Int → Prop
  | some t => ts ≤ t
  | none => False

instance instDecTsCovered (ts : Int) (o : Option Int) : Decidable (tsCovered ts o) :=
  match o with
  | some t => inferInstanceAs (Decidable (ts ≤ t))
  | none => inferInstanceAs (Decidable False)

/-- The claim-C9 invariant: every chat row's `last_message_time` is present
and at least every stored message timestamp of that chat. -/
def lastTimeInv (st : Store) : Prop :=
  ∀ c ∈ st.chats, ∀ m ∈ st.messages, m.chatJid = c.jid → tsCovered m.timestamp c.lastMessageTime

/-- The spec's no-orphan invariant: every message row references an
existing chat row. -/
def orphanFree (st : Store) : Prop :=
  ∀ m ∈ st.messages, ∃ c ∈ st.chats, c.jid = m.chatJid

instance instDecLastTimeInv (st : Store) : Decidable (lastTimeInv st) := by
  unfold lastTimeInv; infer_instance

instance instDecOrphanFree (st : Store) : Decidable (orphanFree st) := by
  unfold orphanFree; infer_instance

/-- `chatCovers st j T`: every chat row for `j` carries a
`last_message_time` that is at least `T`. -/
def chatCovers (st : Store) (j : String) (T : Int) : Prop :=
  ∀ c ∈ st.chats, c.jid = j → tsCovered T c.lastMessageTime

/-- Timestamp bound for an entry of a history-sync message list (`none`
entries carry no bound). -/
def histTsLe : Option HistMsg → Int → Prop
  | some m, T => m.ts ≤ T
  | none, _ => True

instance instDecHistTsLe (e : Option HistMsg) (T : Int) : Decidable (histTsLe e T) :=
  match e with
  | some m => inferInstanceAs (Decidable (m.ts ≤ T))
  | none => inferInstanceAs (Decidable True)

/-- The ordering proviso of the amended claim C9 for one history-sync
conversation: its first listed entry is a message with a nonzero timestamp
that bounds every other listed message and every already-stored message of
that chat. -/
def convOrdered (st : Store) (conv : HistConv) : Prop :=
  match conv.messages.head? with
  | some (some m0) =>
    m0.ts ≠ 0 ∧ (∀ e ∈ conv.messages, histTsLe e m0.ts) ∧
      (∀ m ∈ st.messages, m.chatJid = conv.rawJid → m.timestamp ≤ m0.ts)
  | _ => False

instance instDecConvOrdered (st : Store) (conv : HistConv) :
    Decidable (convOrdered st conv) :=
  match hh : conv.messages.head? with
  | some (some _) => by unfold convOrdered; rw [hh]; infer_instance
  | some none => by unfold convOrdered; rw [hh]; infer_instance
  | none => by unfold convOrdered; rw [hh]; infer_instance

/-! ## SQL text matching helpers

`LOWER` in SQLite folds only the ASCII range, and the default `LIKE`
operator is case-insensitive for ASCII with `%` (any run) and `_` (any one
character) wildcards.  Go's `strings.ToLower` is modelled by the same ASCII
fold (the theorems below only exercise ASCII data). -/

/-- ASCII lower-casing of one character. -/
def asciiLowerChar (c : Char) : Char :=
  if 'A' ≤ c ∧ c ≤ 'Z' then Char.ofNat (c.toNat + 32) else c

/-- ASCII lower-casing of a string (`LOWER(...)` / `strings.ToLower`). -/
def asciiLower (s : String) : String := ⟨s.toList.map asciiLowerChar⟩

/-- First index at which `pat` occurs in the character list. -/
def findChars (pat : List Char) : List Char → Option Nat
  | [] => if pat = [] then some 0 else none
  | h :: t =>
    if pat.isPrefixOf (h :: t) then some 0
    else (findChars pat t).map (· + 1)

/-- SQLite `LIKE` pattern matching: `%` matches any run (here: some suffix
of the text matches the rest of the pattern), `_` any single character,
other characters compare ASCII-case-insensitively. -/
def likeMatch : List Char → List Char → Bool
  | [], [] => true
  | [], _ :: _ => false
  | '%' :: ps, s => s.tails.any (fun t => likeMatch ps t)
  | '_' :: _, [] => false
  | '_' :: ps, _ :: s => likeMatch ps s
  | _ :: _, [] => false
  | p :: ps, c :: s => (asciiLowerChar p = asciiLowerChar c) && likeMatch ps s

/-- `LOWER(content) LIKE LOWER('%' || q || '%')`. -/
def likeContains (content q : String) : Bool :=
  likeMatch (asciiLower ("%" ++ q ++ "%")).toList (asciiLower content).toList

/-! ## search_messages (`internal/store/queries.go`, SearchMessages) -/

/-- Whether a chat row for `jid` exists (the `JOIN chats c ON m.chat_jid =
c.jid` condition). -/
def chatExists (st : Store) (jid : String) : Bool :=
  st.chats.any (fun c => c.jid = jid)

/-- Stable insertion keeping larger timestamps first (`ORDER BY
m.timestamp DESC`). -/
def insertTsDesc (m : MsgRow) : List MsgRow → List MsgRow
  | [] => [m]
  | x :: xs => if x.timestamp < m.timestamp then m :: x :: xs else x :: insertTsDesc m xs

/-- Sort by timestamp descending. -/
def sortTsDesc (ms : List MsgRow) : List MsgRow := ms.foldr insertTsDesc []

/-- `LIMIT ? OFFSET ?` with `OFFSET = page*limit`. -/
def paginate (limit page : Int) (l : List MsgRow) : List MsgRow :=
  (l.drop (page * limit).toNat).take limit.toNat

/-- Sortedness by descending timestamp (`ORDER BY m.timestamp DESC`). -/
def tsSorted (l : List MsgRow) : Prop :=
  l.Pairwise (fun a b => b.timestamp ≤ a.timestamp)

/-- `SearchMessages` (`internal/store/queries.go`).  The FTS5 query parser
is external to the repository and is passed in as `ftsQuery`: on success it
yields the match predicate the index applies to its stored `content`
entries, on failure the `database/sql` error that aborts the first query.
The primary path joins `messages_fts` hits back to `messages` by rowid and
to `chats` by jid; on error it falls back to the `LIKE` query.  Both paths
order by timestamp descending and paginate; no other rows are added. -/
def searchMessages (st : Store) (ftsQuery : String → Except String (String → Bool))
    (q : String) (limit page : Int) : List MsgRow :=
  let limit := if limit ≤ 0 then 20 else limit
  let page := if page < 0 then 0 else page
  match ftsQuery q with
  | .ok matcher =>
    let hits := st.messages.filter (fun m =>
      (st.fts.any (fun e => e.1 = m.rowid && matcher e.2)) && chatExists st m.chatJid)
    paginate limit page (sortTsDesc hits)
  | .error _ =>
    let rows := st.messages.filter (fun m =>
      likeContains m.content q && chatExists st m.chatJid)
    paginate limit page (sortTsDesc rows)

/-- Case-insensitive substring containment, as the claim's words describe
the fallback: the lower-cased query occurs verbatim (no wildcards) inside
the lower-cased content. -/
def substrContains (content q : String) : Bool :=
  (findChars (asciiLower q).toList (asciiLower content).toList).isSome

/-- The fallback as the claim's words describe it: a case-insensitive
substring search over message content, joined to `chats`, ordered by
timestamp descending, paginated.  Compared against the code's actual
fallback `likeFallback` below. -/
def substringSearch (st : Store) (q : String) (limit page : Int) : List MsgRow :=
  let limit := if limit ≤ 0 then 20 else limit
  let page := if page < 0 then 0 else page
  paginate limit page (sortTsDesc (st.messages.filter (fun m =>
    substrContains m.content q && chatExists st m.chatJid)))

/-- The fallback branch exactly as the code executes it: `WHERE
LOWER(m.content) LIKE LOWER(?)` with the query wrapped in `%`, so `%` and
`_` inside the query remain active SQL wildcards; joined to `chats`,
ordered by timestamp descending, paginated. -/
def likeFallback (st : Store) (q : String) (limit page : Int) : List MsgRow :=
  let limit := if limit ≤ 0 then 20 else limit
  let page := if page < 0 then 0 else page
  paginate limit page (sortTsDesc (st.messages.filter (fun m =>
    likeContains m.content q && chatExists st m.chatJid)))

/-! ## Recipient resolver (`internal/wa`, ResolveRecipient) -/

/-- The resolver's failure modes, with the payload the Go error message
carries: `not_found` (with the recipient) and `ambiguous` (with the
formatted candidate list). -/
inductive ResolveError where
  | emptyRecipient
  | notFound (recipient : String)
  | ambiguous (recipient : String) (suggestions : List String)
deriving Repr, DecidableEq

/-- ASCII digit test (`ch < '0' || ch > '9'` negated). -/
def isAsciiDigit (c : Char) : Bool := '0' ≤ c && c ≤ '9'

/-- Character-wise lexicographic order: SQLite's default TEXT collation is
a byte-wise memcmp, which over UTF-8 agrees with code-point order. -/
def charListLe : List Char → List Char → Bool
  | [], _ => true
  | _ :: _, [] => false
  | a :: as, b :: bs =>
    if a.toNat < b.toNat then true
    else if b.toNat < a.toNat then false
    else charListLe as bs

/-- The TEXT order on names. -/
def nameLe (a b : String) : Bool := charListLe a.toList b.toList

/-- Stable insertion by ascending name (`ORDER BY name`). -/
def insertByName (x : String × String) : List (String × String) → List (String × String)
  | [] => [x]
  | y :: ys => if nameLe y.2 x.2 then y :: insertByName x ys else x :: y :: ys

/-- Sort `(jid, name)` pairs by name ascending. -/
def sortByName (l : List (String × String)) : List (String × String) :=
  l.foldr insertByName []

/-- `SELECT jid, name FROM chats WHERE LOWER(name) LIKE '%<lower r>%'
ORDER BY name LIMIT 10`: rows with a NULL name never match `LIKE`. -/
def likeCandidates (chats : List ChatRow) (r : String) : List (String × String) :=
  let pattern := (asciiLower ("%" ++ r ++ "%")).toList
  let matched := chats.filterMap (fun c =>
    match c.name with
    | some n => if likeMatch pattern (asciiLower n).toList then some (c.jid, n) else none
    | none => none)
  (sortByName matched).take 10

/-- Formatting of one ambiguity suggestion: `<name> (<jid>)` when the
stored name is non-empty, the bare jid otherwise. -/
def formatSuggestion (m : String × String) : String :=
  if m.2 ≠ "" then m.2 ++ " (" ++ m.1 ++ ")" else m.1

/-- The tail of `ResolveRecipient` reached when the input neither is empty
nor resolves as a parsed JID: the all-digits phone rule (`len > 5`),
otherwise the `LIKE` name match with its 0/1/many dispatch. -/
def resolvePhoneOrName (chats : List ChatRow) (recipient : String) :
    Except ResolveError String :=
  if recipient.toList.all isAsciiDigit ∧ recipient.length > 5 then
    .ok (recipient ++ "@s.whatsapp.net")
  else
    match likeCandidates chats recipient with
    | [] => .error (.notFound recipient)
    | [m] => .ok m.1
    | ms => .error (.ambiguous recipient (ms.map formatSuggestion))

/-- `ResolveRecipient` (`internal/wa`): empty-input error; `@`-containing
strings that parse are returned as the parsed identifier (a failed parse
falls through); then the phone/name cascade of `resolvePhoneOrName`. -/
def resolveRecipient (parse : String → Option Jid) (chats : List ChatRow)
    (recipient : String) : Except ResolveError String :=
  if recipient = "" then .error .emptyRecipient
  else if hasAtSign recipient then
    match parse recipient with
    | some j => .ok j.str
    | none => resolvePhoneOrName chats recipient
  else resolvePhoneOrName chats recipient

/-- The name-matching step exactly as claim C3 words it: a case-insensitive
substring match on `chats.name` (no `LIKE` wildcards), at most 10
candidates ordered by name. -/
def substrCandidates (chats : List ChatRow) (r : String) : List (String × String) :=
  let needle := (asciiLower r).toList
  let matched := chats.filterMap (fun c =>
    match c.name with
    | some n => if (findChars needle (asciiLower n).toList).isSome then some (c.jid, n) else none
    | none => none)
  (sortByName matched).take 10

/-- The tail of the claim-C3 resolver: phone rule, then substring matching
with every candidate formatted as `<name> (<identifier>)`. -/
def resolveSpecPhoneOrName (chats : List ChatRow) (recipient : String) :
    Except ResolveError String :=
  if recipient.toList.all isAsciiDigit ∧ recipient.length > 5 then
    .ok (recipient ++ "@s.whatsapp.net")
  else
    match substrCandidates chats recipient with
    | [] => .error (.notFound recipient)
    | [m] => .ok m.1
    | ms => .error (.ambiguous recipient (ms.map (fun m => m.2 ++ " (" ++ m.1 ++ ")")))

/-- The resolver exactly as claim C3 states it: substring name matching,
and every ambiguity candidate formatted as `<name> (<identifier>)`. -/
def resolveRecipientSpec (parse : String → Option Jid) (chats : List ChatRow)
    (recipient : String) : Except ResolveError String :=
  if recipient = "" then .error .emptyRecipient
  else if hasAtSign recipient then
    match parse recipient with
    | some j => .ok j.str
    | none => resolveSpecPhoneOrName chats recipient
  else resolveSpecPhoneOrName chats recipient

/-- The resolver as amended: like claim C3 but the name match is the SQL
`LIKE` match on the recipient wrapped in `%` (so `%` and `_` inside the
recipient act as wildcards), and a candidate whose stored name is empty is
listed as its bare identifier. -/
def resolveRecipientAmended (parse : String → Option Jid) (chats : List ChatRow)
    (recipient : String) : Except ResolveError String :=
  if recipient = "" then .error .emptyRecipient
  else if hasAtSign recipient ∧ (parse recipient).isSome then
    .ok (((parse recipient).map Jid.str).getD "")
  else if recipient.toList.all isAsciiDigit ∧ recipient.length > 5 then
    .ok (recipient ++ "@s.whatsapp.net")
  else
    let cands := likeCandidates chats recipient
    if cands.length = 0 then .error (.notFound recipient)
    else if cands.length = 1 then .ok ((cands.headD ("", "")).1)
    else .error (.ambiguous recipient (cands.map formatSuggestion))

/-! ## download_media (`internal/wa/messaging.go`, DownloadMedia) -/

/-- `extractDirectPathFromURL` (`internal/wa/helpers.go`): everything after
the first `".net/"`, query string stripped, prefixed with `/`; the url
itself when `".net/"` does not occur. -/
def extractDirectPathFromURL (url : String) : String :=
  match findChars ".net/".toList url.toList with
  | none => url
  | some i =>
    let rest := url.toList.drop (i + 5)
    let path := rest.takeWhile (· ≠ '?')
    "/" ++ (⟨path⟩ : String)

/-- The columns `DownloadMedia` scans from the message row; `Option` marks
NULL-able text/integer columns (scanning NULL into a Go `string`/`uint64`
makes `Scan` fail), BLOB columns scan NULL as `nil`. -/
structure MediaRowCols where
  mediaType : Option String
  filename : Option String
  url : Option String
  mediaKey : List Nat
  fileSha256 : List Nat
  fileEncSha256 : List Nat
  fileLength : Option Nat
deriving Repr, DecidableEq

/-- Control-flow outcome of `DownloadMedia` up to the network call: a Scan
error (row missing or NULL column), the incomplete-media error — which
returns before `c.WA.Download` is invoked and before any directory or file
is created — or the descriptor with which the download proceeds. -/
inductive DownloadStep where
  | dbError
  | incompleteMedia
  | proceed (url directPath : String) (mediaKey fileSha256 fileEncSha256 : List Nat)
      (fileLength : Nat) (mediaType filename : String)
deriving Repr, DecidableEq

/-- `DownloadMedia` (`internal/wa/messaging.go`), modelled up to the point
where the network download is attempted: look up the row, fail on
incomplete media (`mediaType == "" || url == "" || len(mediaKey) == 0 ||
len(fileSHA256) == 0 || len(fileEncSHA256) == 0 || fileLength == 0`),
otherwise build the download descriptor. -/
def downloadMedia (row : Option MediaRowCols) : DownloadStep :=
  match row with
  | none => .dbError
  | some r =>
    match r.mediaType, r.filename, r.url, r.fileLength with
    | some mt, some fn, some u, some fl =>
      if mt = "" ∨ u = "" ∨ r.mediaKey = [] ∨ r.fileSha256 = [] ∨ r.fileEncSha256 = [] ∨ fl = 0
      then .incompleteMedia
      else .proceed u (extractDirectPathFromURL u) r.mediaKey r.fileSha256 r.fileEncSha256 fl mt fn
    | _, _, _, _ => .dbError

/-! ## Service-layer validation (`internal/service`) -/

/-- The validated pagination parameters a service call passes to the store. -/
structure ValidatedPage where
  limit : Int
  page : Int
deriving Repr, DecidableEq

/-- `ChatService.ListChats` validation: `limit > 200` is rejected first,
then `limit <= 0` defaults to 20 and `page < 0` to 0. -/
def listChatsValidate (limit page : Int) : Except String ValidatedPage :=
  if limit > 200 then .error "limit cannot exceed 200"
  else
    let limit := if limit ≤ 0 then 20 else limit
    let page := if page < 0 then 0 else page
    .ok ⟨limit, page⟩

/-- `ChatService.GetContactChats` validation: empty jid rejected, then
`limit <= 0` defaults to 20, `limit > 200` rejected, `page < 0` to 0. -/
def getContactChatsValidate (jid : String) (limit page : Int) :
    Except String ValidatedPage :=
  if jid = "" then .error "jid cannot be empty"
  else
    let limit := if limit ≤ 0 then 20 else limit
    if limit > 200 then .error "limit cannot exceed 200"
    else .ok ⟨limit, if page < 0 then 0 else page⟩

/-- `MessageService.ListMessages` validation: `limit <= 0` defaults to 20,
`limit > 200` rejected, `page < 0` to 0 (context counts clamp to ≥ 0). -/
def listMessagesValidate (limit page : Int) : Except String ValidatedPage :=
  let limit := if limit ≤ 0 then 20 else limit
  if limit > 200 then .error "limit cannot exceed 200"
  else .ok ⟨limit, if page < 0 then 0 else page⟩

/-- `MessageService.SearchMessages` validation: empty query rejected, then
`limit <= 0` defaults to 20, `limit > 200` rejected, `page < 0` to 0. -/
def searchMessagesValidate (q : String) (limit page : Int) :
    Except String ValidatedPage :=
  if q = "" then .error "query cannot be empty"
  else
    let limit := if limit ≤ 0 then 20 else limit
    if limit > 200 then .error "limit cannot exceed 200"
    else .ok ⟨limit, if page < 0 then 0 else page⟩

/-- What claim C8 promises about a successfully validated pagination pair:
the limit actually used is the default 20 when the parameter was ≤ 0 and
the parameter itself otherwise, lies in `[1, 200]`, and the page index is
clamped to ≥ 0. -/
def validatedOk (limit page : Int) (v : ValidatedPage) : Prop :=
  v.limit = (if limit ≤ 0 then 20 else limit) ∧ 1 ≤ v.limit ∧ v.limit ≤ 200 ∧
    v.page = max page 0

instance instDecValidatedOk (limit page : Int) (v : ValidatedPage) :
    Decidable (validatedOk limit page v) := by
  unfold validatedOk; infer_instance

/-! ## Concrete fixtures used by the counterexamples and witnesses -/

/-- Acceptance condition of the analyser: at least 4 bytes and the `OggS`
magic at offset 0. -/
def oggAccepted (raw : List Nat) : Prop :=
  4 ≤ raw.length ∧ (raw.map (· % 256)).take 4 = oggMagic

instance instDecOggAccepted (raw : List Nat) : Decidable (oggAccepted raw) := by
  unfold oggAccepted; infer_instance

/-- A single-page Ogg stream whose `OpusHead` declares pre-skip 2 and
sample rate 48000 while the page's granule position is 1 (less than the
pre-skip): 27-byte header (granule 1, sequence 0, one segment), segment
table `[24]`, 24-byte body starting with `OpusHead`. -/
def oggPreSkipInput : List Nat :=
  [79, 103, 103, 83, 0, 0, 1, 0, 0, 0, 0, 0, 0, 0, 0, 0, 0, 0, 0, 0, 0, 0,
   0, 0, 0, 0, 1, 24,
   79, 112, 117, 115, 72, 101, 97, 100, 1, 1, 2, 0, 128, 187, 0, 0, 0, 0, 0,
   0, 0, 0, 0, 0]

/-- A truncated Ogg page: valid magic, page sequence 0, one segment of
declared length 255, but only 29 bytes of input, so
`pageSize = 27 + 1 + 255 = 283` and the slice `data[0:283]` is out of
range. -/
def oggTruncatedInput : List Nat :=
  [79, 103, 103, 83, 0, 0, 0, 0, 0, 0, 0, 0, 0, 0, 0, 0, 0, 0, 0, 0, 0, 0,
   0, 0, 0, 0, 1, 255, 0]

/-- An external environment in which no directory lookup succeeds. -/
def syncEnv : NameEnv := ⟨fun _ => none, fun _ => none, fun _ => none, none⟩

/-- The replayed real-time event of the idempotence scenario: direct chat
`123@s.whatsapp.net`, message id `m1`, timestamp 100, content `hello`. -/
def replayEvent : MsgEvent :=
  ⟨⟨"123", "s.whatsapp.net"⟩, "123", "m1", 100, false, "hello", MediaInfo.empty⟩

/-- A real-time event with timestamp 200 (arrives first). -/
def evTs200 : MsgEvent :=
  ⟨⟨"123", "s.whatsapp.net"⟩, "123", "mA", 200, false, "first", MediaInfo.empty⟩

/-- A real-time event in the same chat with timestamp 100 (arrives second). -/
def evTs100 : MsgEvent :=
  ⟨⟨"123", "s.whatsapp.net"⟩, "123", "mB", 100, false, "second", MediaInfo.empty⟩

/-- An environment that parses only the group id `A@g.us`. -/
def histEnv : NameEnv :=
  ⟨fun _ => none, fun _ => none,
   fun s => if s = "A@g.us" then some ⟨"A", "g.us"⟩ else none, none⟩

/-- History-sync message listed first, timestamp 100. -/
def histMsgEarly : HistMsg :=
  ⟨"hi", MediaInfo.empty, some ⟨some false, some "777@s.whatsapp.net", some "h1"⟩, 100⟩

/-- History-sync message listed second, timestamp 200. -/
def histMsgLate : HistMsg :=
  ⟨"later", MediaInfo.empty, some ⟨some false, some "777@s.whatsapp.net", some "h2"⟩, 200⟩

/-- A history-sync conversation whose first listed message is NOT the most
recent one. -/
def convNewestSecond : HistConv :=
  ⟨"A@g.us", ⟨some "Team", none⟩, [some histMsgEarly, some histMsgLate]⟩

/-- A message row of the search fixture chat `C@g.us`. -/
def searchMsg (rid : Nat) (id : String) (ts : Int) (content : String) : MsgRow :=
  ⟨rid, id, "C@g.us", "7", content, ts, false, MediaInfo.empty⟩

/-- The search fixture: one chat with five messages at timestamps 1..5 of
which only the third has content `hit`, with a consistent FTS index. -/
def searchStore : Store :=
  ⟨[⟨"C@g.us", some "C", some 5⟩],
   [searchMsg 1 "m1" 1 "aa", searchMsg 2 "m2" 2 "bb", searchMsg 3 "m3" 3 "hit",
    searchMsg 4 "m4" 4 "dd", searchMsg 5 "m5" 5 "ee"],
   [(1, "aa"), (2, "bb"), (3, "hit"), (4, "dd"), (5, "ee")]⟩

/-- An FTS engine whose parsed query matches exactly the equal content. -/
def ftsExact : String → Except String (String → Bool) :=
  fun q => .ok (fun c => c = q)

/-- An FTS engine that always fails to construct the query. -/
def ftsFailing : String → Except String (String → Bool) :=
  fun _ => .error "fts5: syntax error"

/-- Fallback fixture: one chat with one message whose content contains
`1005` but not the literal substring `100%`. -/
def wildcardStore : Store :=
  ⟨[⟨"9@s.whatsapp.net", some "Nine", some 5⟩],
   [⟨1, "w1", "9@s.whatsapp.net", "9", "1005 widgets", 5, false, MediaInfo.empty⟩],
   [(1, "1005 widgets")]⟩

/-- A JID parser that never succeeds (no fixture input is a full JID). -/
def parseNone : String → Option Jid := fun _ => none

/-- Resolver fixture: one chat named `abc`. -/
def chatsAbc : List ChatRow := [⟨"10@s.whatsapp.net", some "abc", none⟩]

/-- Resolver fixture: a chat with an empty (non-NULL) name and one named
`Bob`. -/
def chatsEmptyAndBob : List ChatRow :=
  [⟨"1@s.whatsapp.net", some "", none⟩, ⟨"2@s.whatsapp.net", some "Bob", none⟩]

/-- A media row with `media_type` set but a zero-length `media_key`. -/
def incompleteImageRow : MediaRowCols :=
  ⟨some "image", some "photo.jpg", some "https://mmg.whatsapp.net/v/t62?a=1",
   [], [1, 2], [3, 4], some 10⟩

/-! ## Helper lemmas -/

/-- The two sequential clamps of `AnalyzeOggOpus` (`<1 → 1`, then
`>300 → 300`) compute `min (max d 1) 300`. -/
theorem clamp_step_eq (d : Nat) :
    (if (if d < 1 then 1 else d) > 300 then 300 else (if d < 1 then 1 else d)) =
      min (max d 1) 300 := by
  rw [Nat.min_def, Nat.max_def]
  split_ifs <;> omega

/-- The duration computation of the source equals the amended formula. -/
theorem oggDuration_eq_amended (st : OggState) (len : Nat) :
    oggDuration st len = amendedDuration st len := by
  unfold oggDuration amendedDuration
  rcases Nat.eq_zero_or_pos st.lastGranule with h | h
  · simp only [h, gt_iff_lt, lt_irrefl, if_false, if_true]
    exact clamp_step_eq _
  · have h0 : st.lastGranule ≠ 0 := Nat.pos_iff_ne_zero.mp h
    simp only [gt_iff_lt, h, if_true, h0, if_false]
    exact clamp_step_eq _

/-- A list of genuine byte values is unchanged by the mod-256
normalisation. -/
theorem map_mod_eq_self (l : List Nat) (hb : ∀ b ∈ l, b < 256) :
    l.map (· % 256) = l := by
  induction l with
  | nil => rfl
  | cons a t ih =>
    simp only [List.map_cons]
    rw [Nat.mod_eq_of_lt (hb a (by simp)), ih (fun b hbm => hb b (by simp [hbm]))]

/-- Floor-then-truncate of the clamped waveform value never exceeds 100. -/
theorem clampFloorToNat_le (v : ℝ) :
    (⌊if v < 0 then (0 : ℝ) else if v > 100 then 100 else v⌋).toNat ≤ 100 := by
  have hle : (if v < 0 then (0 : ℝ) else if v > 100 then 100 else v) ≤ 100 := by
    split_ifs with h1 h2
    · norm_num
    · norm_num
    · exact le_of_not_lt h2
  have hfl : ⌊if v < 0 then (0 : ℝ) else if v > 100 then 100 else v⌋ ≤ (100 : ℤ) := by
    have h := Int.floor_le_floor hle
    simpa using h
  exact Int.toNat_le.mpr hfl

/-! ## Claim C5 -/

/-- C5 (counterexample): on `oggPreSkipInput` the analyser returns
duration 300, while the claim's formula — `ceil((last_granule − pre_skip)
/ sample_rate)` with true subtraction, clamped to `[1, 300]` — yields 1 for
the loop-extracted values (last granule 1, pre-skip 2, rate 48000): the
source subtracts in `uint64`, which wraps. -/
theorem c5_counterexample :
    analyzeOggOpus oggPreSkipInput = .ok 300 ∧
    oggFinalState oggPreSkipInput = .done ⟨1, 48000, 2, true⟩ ∧
    claimDuration ⟨1, 48000, 2, true⟩ oggPreSkipInput.length = 1 := by
  refine ⟨by decide, by decide, ?_⟩
  have hceil : ⌈((1 : ℚ) - 2) / 48000⌉ = 0 := by
    rw [Int.ceil_eq_iff]
    norm_num
  simp [claimDuration, hceil]

/-- C5 (amended): for every accepted input on which the page loop
completes, the returned duration is the amended formula — the wrapped
(`mod 2^64`) difference of last nonzero granule and pre-skip, divided with
exact ceiling by the OpusHead sample rate (defaults 0 and 48000 when no
OpusHead was found on a page with sequence number ≤ 1), `len/2000` when no
nonzero granule was seen, clamped to `[1, 300]`. -/
theorem c5_duration_amended (raw : List Nat) (st : OggState)
    (hacc : oggAccepted raw) (hdone : oggFinalState raw = .done st) :
    analyzeOggOpus raw = .ok (amendedDuration st raw.length) := by
  obtain ⟨h4, hmagic⟩ := hacc
  have hlen : (raw.map (· % 256)).length = raw.length := by simp
  have hcond : ¬ ((raw.map (· % 256)).length < 4 ∨ (raw.map (· % 256)).take 4 ≠ oggMagic) := by
    push_neg
    refine ⟨?_, hmagic⟩
    rw [hlen]; omega
  simp only [analyzeOggOpus, hdone, if_neg hcond]
  rw [oggDuration_eq_amended, hlen]

/-- C5 (witness): the four-byte input `OggS` is accepted, its loop yields
the initial state and the analyser returns the amended-formula duration. -/
theorem c5_witness :
    oggAccepted [79, 103, 103, 83] ∧
    oggFinalState [79, 103, 103, 83] = .done initOggState ∧
    analyzeOggOpus [79, 103, 103, 83] = .ok (amendedDuration initOggState 4) :=
  ⟨by decide, by decide, c5_duration_amended _ _ (by decide) (by decide)⟩

/-! ## Claim C6 -/

/-- C6: for every rand-stream semantics and every duration, the waveform
has length exactly 64, every byte is at most 100 (being `Nat`, bytes are
nonnegative by type), and equal durations produce equal waveforms — the
rand stream is a function of the seeding duration, which is exactly how
`rand.Seed(int64(duration))` makes the subsequent `rand.Float64()` draws
deterministic in the duration. -/
theorem c6_waveform_shape (randStream : ℕ → ℕ → ℝ) (d d2 : ℕ) (h : d = d2) :
    (placeholderWaveform randStream d).length = 64 ∧
    (∀ b ∈ placeholderWaveform randStream d, b ≤ 100) ∧
    placeholderWaveform randStream d = placeholderWaveform randStream d2 := by
  refine ⟨by simp [placeholderWaveform], ?_, by rw [h]⟩
  intro b hb
  simp only [placeholderWaveform, List.mem_map, List.mem_range] at hb
  obtain ⟨i, -, rfl⟩ := hb
  exact clampFloorToNat_le _

/-- C6 (witness): instantiation at the all-zero rand stream and duration 7. -/
theorem c6_witness :
    (placeholderWaveform (fun _ _ => (0 : ℝ)) 7).length = 64 ∧
    (∀ b ∈ placeholderWaveform (fun _ _ => (0 : ℝ)) 7, b ≤ 100) ∧
    placeholderWaveform (fun _ _ => (0 : ℝ)) 7 = placeholderWaveform (fun _ _ => (0 : ℝ)) 7 :=
  c6_waveform_shape (fun _ _ => (0 : ℝ)) 7 7 rfl

/-! ## Claim C10 -/

/-- C10 (counterexample): `oggTruncatedInput` is accepted (length ≥ 4,
`OggS` magic) yet the analyser does not return a duration: the truncated
page with sequence number 0 makes `data[0:283]` out of range — a Go
runtime panic, refuting "terminates without any out-of-bounds access or
panic ... regardless of malformed ... truncated pages". -/
theorem c10_counterexample :
    4 ≤ oggTruncatedInput.length ∧ oggTruncatedInput.take 4 = oggMagic ∧
    analyzeOggOpus oggTruncatedInput = .sliceOob := by
  decide

/-- C10 (amended): for every byte input, the analyser returns the
`not an Ogg file` error exactly when the input is shorter than 4 bytes or
does not begin with `OggS`; otherwise it either returns a duration (with
the waveform `placeholderWaveform duration`) or hits the out-of-range page
slice (Go panic) — the latter being the case the original claim excluded. -/
theorem c10_magic_check_totality (raw : List Nat) (hb : ∀ b ∈ raw, b < 256) :
    (analyzeOggOpus raw = .notOgg ↔ (raw.length < 4 ∨ raw.take 4 ≠ oggMagic)) ∧
    (¬ (raw.length < 4 ∨ raw.take 4 ≠ oggMagic) →
      analyzeOggOpus raw = .sliceOob ∨
        ∃ st, oggFinalState raw = .done st ∧
          analyzeOggOpus raw = .ok (oggDuration st raw.length)) := by
  have hmap : raw.map (· % 256) = raw := map_mod_eq_self raw hb
  constructor
  · constructor
    · intro h
      by_contra hc
      rcases hfs : oggFinalState raw with _ | st
      · simp [analyzeOggOpus, hmap, hfs, if_neg hc] at h
      · simp [analyzeOggOpus, hmap, hfs, if_neg hc] at h
    · intro h
      simp [analyzeOggOpus, hmap, h]
  · intro h
    rcases hfs : oggFinalState raw with _ | st
    · left
      simp [analyzeOggOpus, hmap, hfs, if_neg h]
    · right
      refine ⟨st, by simp [hfs], ?_⟩
      simp [analyzeOggOpus, hmap, hfs, if_neg h]

/-- C10 (witness): instantiation at the minimal accepted input `OggS`. -/
theorem c10_witness :
    (analyzeOggOpus [79, 103, 103, 83] = .notOgg ↔
      (([79, 103, 103, 83] : List Nat).length < 4 ∨
        ([79, 103, 103, 83] : List Nat).take 4 ≠ oggMagic)) ∧
    (¬ (([79, 103, 103, 83] : List Nat).length < 4 ∨
        ([79, 103, 103, 83] : List Nat).take 4 ≠ oggMagic) →
      analyzeOggOpus [79, 103, 103, 83] = .sliceOob ∨
        ∃ st, oggFinalState [79, 103, 103, 83] = .done st ∧
          analyzeOggOpus [79, 103, 103, 83] =
            .ok (oggDuration st ([79, 103, 103, 83] : List Nat).length)) :=
  c10_magic_check_totality [79, 103, 103, 83] (by decide)

/-! ## Claim C4 -/

/-- C4 (counterexample): the query `100%` fails full-text construction and
reaches the fallback, where `%` stays an SQL wildcard: the code matches the
content `1005 widgets`, which does not contain the substring `100%`, so the
fallback is not the claimed case-insensitive substring search. -/
theorem c4_counterexample :
    ftsFailing "100%" = .error "fts5: syntax error" ∧
    searchMessages wildcardStore ftsFailing "100%" 0 0 =
      [⟨1, "w1", "9@s.whatsapp.net", "9", "1005 widgets", 5, false, MediaInfo.empty⟩] ∧
    substringSearch wildcardStore "100%" 0 0 = [] := by
  refine ⟨rfl, ?_, ?_⟩ <;> decide

/-- C4 (amended): whenever constructing the full-text query fails (the FTS
engine returns an error for the query string), `SearchMessages` does not
surface the error: it returns exactly the results of the `LIKE` fallback
query — ASCII-case-insensitive matching of `'%' ++ q ++ '%'` with `%` and
`_` inside the query acting as wildcards, not the plain substring search
the original claim states (see the counterexample) — joined to `chats`,
ordered by timestamp descending and paginated. -/
theorem c4_fallback_amended (st : Store)
    (ftsQuery : String → Except String (String → Bool)) (q : String)
    (limit page : Int) (e : String) (h : ftsQuery q = .error e) :
    searchMessages st ftsQuery q limit page = likeFallback st q limit page := by
  simp [searchMessages, likeFallback, h]

/-- C4 (witness): the failing engine on the five-message fixture. -/
theorem c4_witness :
    searchMessages searchStore ftsFailing "b" 0 0 = likeFallback searchStore "b" 0 0 :=
  c4_fallback_amended searchStore ftsFailing "b" 0 0 "fts5: syntax error" rfl

/-! ## Claim C7 -/

/-- C7: a message row whose columns scanned successfully but in which
`media_type` or `url` is empty, any of the three BLOBs is zero-length, or
`file_length` is zero, makes `DownloadMedia` return the incomplete-media
error: the function returns before `c.WA.Download` is called and before
any directory or file is written (`DownloadStep.incompleteMedia` carries no
download descriptor, unlike `DownloadStep.proceed`). -/
theorem c7_incomplete_media (r : MediaRowCols) (mt fn u : String) (fl : Nat)
    (hmt : r.mediaType = some mt) (hfn : r.filename = some fn)
    (hu : r.url = some u) (hfl : r.fileLength = some fl)
    (habsent : mt = "" ∨ u = "" ∨ r.mediaKey = [] ∨ r.fileSha256 = [] ∨
      r.fileEncSha256 = [] ∨ fl = 0) :
    downloadMedia (some r) = .incompleteMedia := by
  simp only [downloadMedia, hmt, hfn, hu, hfl]
  rw [if_pos habsent]

/-- C7 (witness): the image row with a zero-length media key. -/
theorem c7_witness : downloadMedia (some incompleteImageRow) = .incompleteMedia :=
  c7_incomplete_media incompleteImageRow "image" "photo.jpg"
    "https://mmg.whatsapp.net/v/t62?a=1" 10 rfl rfl rfl rfl (by decide)

/-! ## Claim C8 -/

/-- `ChatService.ListChats` rejects `limit > 200`. -/
theorem listChatsValidate_error (limit page : Int) (h : limit > 200) :
    listChatsValidate limit page = .error "limit cannot exceed 200" := by
  unfold listChatsValidate
  rw [if_pos h]

/-- `ChatService.ListChats` success gives the claimed limit and page. -/
theorem listChatsValidate_ok (limit page : Int) (v : ValidatedPage)
    (hv : listChatsValidate limit page = .ok v) : validatedOk limit page v := by
  simp only [listChatsValidate] at hv
  by_cases h1 : limit > 200
  · rw [if_pos h1] at hv; cases hv
  · rw [if_neg h1] at hv
    rw [Except.ok.injEq] at hv
    subst hv
    refine ⟨?_, ?_, ?_, ?_⟩ <;> dsimp only <;> (try split_ifs) <;> omega

/-- `ChatService.GetContactChats` fails whenever `limit > 200`. -/
theorem getContactChatsValidate_error (jid : String) (limit page : Int)
    (h : limit > 200) : ∃ e, getContactChatsValidate jid limit page = .error e := by
  unfold getContactChatsValidate
  by_cases hj : jid = ""
  · exact ⟨_, by rw [if_pos hj]⟩
  · rw [if_neg hj, if_neg (show ¬ limit ≤ 0 by omega), if_pos h]
    exact ⟨_, rfl⟩

/-- `ChatService.GetContactChats` success gives the claimed limit and page. -/
theorem getContactChatsValidate_ok (jid : String) (limit page : Int)
    (v : ValidatedPage) (hv : getContactChatsValidate jid limit page = .ok v) :
    validatedOk limit page v := by
  simp only [getContactChatsValidate] at hv
  by_cases hj : jid = ""
  · rw [if_pos hj] at hv; cases hv
  · rw [if_neg hj] at hv
    by_cases h0 : limit ≤ 0
    · rw [if_pos h0, if_neg (show ¬ (20 : Int) > 200 by omega)] at hv
      rw [Except.ok.injEq] at hv
      subst hv
      refine ⟨?_, ?_, ?_, ?_⟩ <;> dsimp only <;> (try split_ifs) <;> omega
    · rw [if_neg h0] at hv
      by_cases h1 : limit > 200
      · rw [if_pos h1] at hv; cases hv
      · rw [if_neg h1] at hv
        rw [Except.ok.injEq] at hv
        subst hv
        refine ⟨?_, ?_, ?_, ?_⟩ <;> dsimp only <;> (try split_ifs) <;> omega

/-- `MessageService.ListMessages` rejects `limit > 200`. -/
theorem listMessagesValidate_error (limit page : Int) (h : limit > 200) :
    listMessagesValidate limit page = .error "limit cannot exceed 200" := by
  simp only [listMessagesValidate]
  rw [if_neg (show ¬ limit ≤ 0 by omega), if_pos h]

/-- `MessageService.ListMessages` success gives the claimed limit and page. -/
theorem listMessagesValidate_ok (limit page : Int) (v : ValidatedPage)
    (hv : listMessagesValidate limit page = .ok v) : validatedOk limit page v := by
  simp only [listMessagesValidate] at hv
  by_cases h0 : limit ≤ 0
  · rw [if_pos h0, if_neg (show ¬ (20 : Int) > 200 by omega)] at hv
    rw [Except.ok.injEq] at hv
    subst hv
    refine ⟨?_, ?_, ?_, ?_⟩ <;> dsimp only <;> (try split_ifs) <;> omega
  · rw [if_neg h0] at hv
    by_cases h1 : limit > 200
    · rw [if_pos h1] at hv; cases hv
    · rw [if_neg h1] at hv
      rw [Except.ok.injEq] at hv
      subst hv
      refine ⟨?_, ?_, ?_, ?_⟩ <;> dsimp only <;> (try split_ifs) <;> omega

/-- `MessageService.SearchMessages` fails whenever `limit > 200`. -/
theorem searchMessagesValidate_error (q : String) (limit page : Int)
    (h : limit > 200) : ∃ e, searchMessagesValidate q limit page = .error e := by
  unfold searchMessagesValidate
  by_cases hq : q = ""
  · exact ⟨_, by rw [if_pos hq]⟩
  · rw [if_neg hq, if_neg (show ¬ limit ≤ 0 by omega), if_pos h]
    exact ⟨_, rfl⟩

/-- `MessageService.SearchMessages` success gives the claimed limit/page. -/
theorem searchMessagesValidate_ok (q : String) (limit page : Int)
    (v : ValidatedPage) (hv : searchMessagesValidate q limit page = .ok v) :
    validatedOk limit page v := by
  simp only [searchMessagesValidate] at hv
  by_cases hq : q = ""
  · rw [if_pos hq] at hv; cases hv
  · rw [if_neg hq] at hv
    by_cases h0 : limit ≤ 0
    · rw [if_pos h0, if_neg (show ¬ (20 : Int) > 200 by omega)] at hv
      rw [Except.ok.injEq] at hv
      subst hv
      refine ⟨?_, ?_, ?_, ?_⟩ <;> dsimp only <;> (try split_ifs) <;> omega
    · rw [if_neg h0] at hv
      by_cases h1 : limit > 200
      · rw [if_pos h1] at hv; cases hv
      · rw [if_neg h1] at hv
        rw [Except.ok.injEq] at hv
        subst hv
        refine ⟨?_, ?_, ?_, ?_⟩ <;> dsimp only <;> (try split_ifs) <;> omega

/-- C8: across the four list/search operations of the service layer
(`ListChats`, `GetContactChats`, `ListMessages`, `SearchMessages`), a limit
greater than 200 makes the operation fail with a validation error, and
every successfully validated call uses limit `20` in place of a
zero-or-negative parameter (otherwise the parameter itself), always inside
`[1, 200]`, with negative page indices replaced by 0. -/
theorem c8_limit_validation (limit page : Int) (jid q : String) :
    (limit > 200 →
      (∃ e, listChatsValidate limit page = .error e) ∧
      (∃ e, getContactChatsValidate jid limit page = .error e) ∧
      (∃ e, listMessagesValidate limit page = .error e) ∧
      (∃ e, searchMessagesValidate q limit page = .error e)) ∧
    (∀ v, listChatsValidate limit page = .ok v → validatedOk limit page v) ∧
    (∀ v, getContactChatsValidate jid limit page = .ok v → validatedOk limit page v) ∧
    (∀ v, listMessagesValidate limit page = .ok v → validatedOk limit page v) ∧
    (∀ v, searchMessagesValidate q limit page = .ok v → validatedOk limit page v) := by
  refine ⟨fun h => ⟨⟨_, listChatsValidate_error limit page h⟩,
      getContactChatsValidate_error jid limit page h,
      ⟨_, listMessagesValidate_error limit page h⟩,
      searchMessagesValidate_error q limit page h⟩,
    listChatsValidate_ok limit page,
    getContactChatsValidate_ok jid limit page,
    listMessagesValidate_ok limit page,
    searchMessagesValidate_ok q limit page⟩

/-- C8 (witness): limit 0 and page −1 validate to limit 20, page 0, which
satisfies the claimed bounds. -/
theorem c8_witness : validatedOk 0 (-1) ⟨20, 0⟩ :=
  (c8_limit_validation 0 (-1) "j" "x").2.1 ⟨20, 0⟩ (by rfl)

/-! ## Claim C3 -/

/-- The phone-or-name tail of the source resolver equals the count-based
cascade of the amended claim. -/
theorem phoneOrName_eq_cascade (chats : List ChatRow) (r : String) :
    resolvePhoneOrName chats r =
      (if r.toList.all isAsciiDigit ∧ r.length > 5 then
        Except.ok (r ++ "@s.whatsapp.net")
      else if (likeCandidates chats r).length = 0 then
        Except.error (ResolveError.notFound r)
      else if (likeCandidates chats r).length = 1 then
        Except.ok (((likeCandidates chats r).headD ("", "")).1)
      else Except.error (ResolveError.ambiguous r
        ((likeCandidates chats r).map formatSuggestion))) := by
  unfold resolvePhoneOrName
  by_cases hd : r.toList.all isAsciiDigit ∧ r.length > 5
  · rw [if_pos hd, if_pos hd]
  · rw [if_neg hd, if_neg hd]
    rcases hc : likeCandidates chats r with _ | ⟨a, _ | ⟨b, t⟩⟩ <;> rfl

/-- C3 (counterexample): with the single chat named `abc`, the recipient
`a_c` has zero case-insensitive substring matches — the claim then demands
the not-found error — yet the resolver returns `10@s.whatsapp.net`,
because the SQL `LIKE` treats `_` as a wildcard.  With a chat having an
empty stored name, the recipient `%` matches everything and the ambiguity
message lists the empty-named candidate as a bare identifier, not as
`<name> (<identifier>)`. -/
theorem c3_counterexample :
    resolveRecipient parseNone chatsAbc "a_c" = .ok "10@s.whatsapp.net" ∧
    substrCandidates chatsAbc "a_c" = [] ∧
    resolveRecipientSpec parseNone chatsAbc "a_c" = .error (.notFound "a_c") ∧
    resolveRecipient parseNone chatsEmptyAndBob "%" =
      .error (.ambiguous "%" ["1@s.whatsapp.net", "Bob (2@s.whatsapp.net)"]) ∧
    resolveRecipientSpec parseNone chatsEmptyAndBob "%" = .error (.notFound "%") := by
  decide

/-- C3 (amended): the resolver behaves exactly as the claim states except
that the name matching is the SQL `LIKE` match on the recipient wrapped in
`%` (so `%`/`_` inside the recipient act as wildcards, not literal
substring characters) and an ambiguity candidate whose stored name is
empty is listed as its bare identifier. -/
theorem c3_resolver_amended (parse : String → Option Jid) (chats : List ChatRow)
    (recipient : String) :
    resolveRecipient parse chats recipient =
      resolveRecipientAmended parse chats recipient := by
  unfold resolveRecipient resolveRecipientAmended
  by_cases hr : recipient = ""
  · rw [if_pos hr, if_pos hr]
  · rw [if_neg hr, if_neg hr]
    by_cases hat : hasAtSign recipient = true
    · rw [if_pos hat]
      cases hp : parse recipient with
      | some j =>
        have hcond : (hasAtSign recipient = true) ∧ (some j : Option Jid).isSome = true :=
          ⟨hat, rfl⟩
        rw [if_pos hcond]
        simp
      | none =>
        have hcond : ¬ ((hasAtSign recipient = true) ∧ (none : Option Jid).isSome = true) := by
          rintro ⟨-, hs⟩; cases hs
        rw [if_neg hcond]
        exact phoneOrName_eq_cascade chats recipient
    · have hcond : ¬ ((hasAtSign recipient = true) ∧ (parse recipient).isSome = true) :=
        fun h => hat h.1
      rw [if_neg hat, if_neg hcond]
      exact phoneOrName_eq_cascade chats recipient

/-! ## Claim C2 -/

/-- Membership in a one-step timestamp insertion. -/
theorem mem_insertTsDesc {m x : MsgRow} {l : List MsgRow} :
    x ∈ insertTsDesc m l ↔ x = m ∨ x ∈ l := by
  induction l with
  | nil => simp [insertTsDesc]
  | cons a t ih =>
    simp only [insertTsDesc]
    split_ifs
    · simp only [List.mem_cons]
    · simp only [List.mem_cons, ih]
      tauto

/-- Sorting by timestamp does not change membership. -/
theorem mem_sortTsDesc {x : MsgRow} {l : List MsgRow} :
    x ∈ sortTsDesc l ↔ x ∈ l := by
  induction l with
  | nil => simp [sortTsDesc]
  | cons a t ih =>
    show x ∈ insertTsDesc a (sortTsDesc t) ↔ _
    rw [mem_insertTsDesc, ih]
    exact (List.mem_cons).symm

/-- Insertion preserves descending-timestamp sortedness. -/
theorem tsSorted_insertTsDesc (m : MsgRow) {l : List MsgRow} (h : tsSorted l) :
    tsSorted (insertTsDesc m l) := by
  induction l with
  | nil => simp [insertTsDesc, tsSorted]
  | cons a t ih =>
    rcases List.pairwise_cons.mp h with ⟨ha, ht⟩
    simp only [insertTsDesc]
    split_ifs with hlt
    · refine List.pairwise_cons.mpr ⟨?_, h⟩
      intro y hy
      rcases List.mem_cons.mp hy with rfl | hyt
      · exact le_of_lt hlt
      · exact le_trans (ha y hyt) (le_of_lt hlt)
    · refine List.pairwise_cons.mpr ⟨?_, ih ht⟩
      intro y hy
      rcases mem_insertTsDesc.mp hy with rfl | hyt
      · exact not_lt.mp hlt
      · exact ha y hyt

/-- The insertion sort produces a descending-timestamp list. -/
theorem tsSorted_sortTsDesc (l : List MsgRow) : tsSorted (sortTsDesc l) := by
  induction l with
  | nil => simp [sortTsDesc, tsSorted]
  | cons a t ih => exact tsSorted_insertTsDesc a ih

/-- C2 (counterexample): in the five-message store where only `m3` (t3)
matches, `SearchMessages` returns just the hit — not the hit together with
the two earlier and two later messages of the chat that the claim
requires. -/
theorem c2_counterexample :
    searchMessages searchStore ftsExact "hit" 0 0 = [searchMsg 3 "m3" 3 "hit"] ∧
    searchStore.messages.length = 5 := by
  exact ⟨by decide, by decide⟩

/-- C2 (amended): on the full-text path, every message returned by
`SearchMessages` is a message row whose rowid is matched by the FTS index
under the query's matcher and whose chat exists — i.e. the result contains
only the hits themselves, ordered by timestamp descending (and paginated);
no surrounding context messages are added. -/
theorem c2_search_hits_only (st : Store)
    (ftsQuery : String → Except String (String → Bool)) (q : String)
    (limit page : Int) (matcher : String → Bool) (h : ftsQuery q = .ok matcher) :
    (∀ m ∈ searchMessages st ftsQuery q limit page,
      m ∈ st.messages ∧
        st.fts.any (fun e => e.1 = m.rowid && matcher e.2) = true ∧
        chatExists st m.chatJid = true) ∧
    tsSorted (searchMessages st ftsQuery q limit page) := by
  have hEq : searchMessages st ftsQuery q limit page =
      paginate (if limit ≤ 0 then 20 else limit) (if page < 0 then 0 else page)
        (sortTsDesc (st.messages.filter (fun m =>
          (st.fts.any (fun e => e.1 = m.rowid && matcher e.2)) &&
            chatExists st m.chatJid))) := by
    simp [searchMessages, h]
  rw [hEq]
  constructor
  · intro m hm
    have hm1 : m ∈ sortTsDesc (st.messages.filter (fun m =>
        (st.fts.any (fun e => e.1 = m.rowid && matcher e.2)) &&
          chatExists st m.chatJid)) := by
      unfold paginate at hm
      exact List.mem_of_mem_drop (List.mem_of_mem_take hm)
    have hm2 := mem_sortTsDesc.mp hm1
    have hm3 := List.mem_filter.mp hm2
    have hm4 := Bool.and_eq_true_iff.mp hm3.2
    exact ⟨hm3.1, hm4.1, hm4.2⟩
  · unfold paginate
    exact List.Pairwise.sublist ((List.take_sublist _ _).trans (List.drop_sublist _ _))
      (tsSorted_sortTsDesc _)

/-- C2 (witness): instantiation at the five-message fixture with the
exact-match engine. -/
theorem c2_witness :
    (∀ m ∈ searchMessages searchStore ftsExact "hit" 0 0,
      m ∈ searchStore.messages ∧
        searchStore.fts.any (fun e => e.1 = m.rowid && (fun c => c = "hit") e.2) = true ∧
        chatExists searchStore m.chatJid = true) ∧
    tsSorted (searchMessages searchStore ftsExact "hit" 0 0) :=
  c2_search_hits_only searchStore ftsExact "hit" 0 0 (fun c => c = "hit") rfl

/-! ## Claim C1 -/

/-- C1: applying the same real-time message event twice to the empty store
leaves exactly one row in `messages` for `(m1, 123@s.whatsapp.net)` and
leaves the chat's `last_message_time` unchanged at the event timestamp —
but the FTS index holds TWO entries for the row's content `hello`, not one:
the second `INSERT OR REPLACE` deletes the old message row without firing
the delete trigger (SQLite fires delete triggers during REPLACE conflict
resolution only with `recursive_triggers` on, which the store does not
enable), while the insert trigger appends a fresh index entry. -/
theorem c1_replay_fts_duplication :
    ((handleMessage syncEnv (handleMessage syncEnv Store.empty replayEvent)
        replayEvent).messages.filter
      (fun m => m.id == "m1" && m.chatJid == "123@s.whatsapp.net")).length = 1 ∧
    ((handleMessage syncEnv (handleMessage syncEnv Store.empty replayEvent)
        replayEvent).fts.filter (fun e => e.2 == "hello")).length = 2 ∧
    chatLastTime (handleMessage syncEnv (handleMessage syncEnv Store.empty replayEvent)
        replayEvent) "123@s.whatsapp.net" = some (some 100) ∧
    chatLastTime (handleMessage syncEnv Store.empty replayEvent) "123@s.whatsapp.net" =
      some (some 100) ∧
    ((handleMessage syncEnv Store.empty replayEvent).fts.filter
      (fun e => e.2 == "hello")).length = 1 := by
  decide

/-! ## Claim C9 -/

/-- Lower bounds on an optional chat timestamp transfer downwards. -/
theorem tsCovered_mono {t1 t2 : Int} {o : Option Int} (h : tsCovered t2 o)
    (hle : t1 ≤ t2) : tsCovered t1 o := by
  cases o with
  | none => exact h
  | some t => exact le_trans hle h

/-- `insertChatIfAbsent` leaves the message table unchanged. -/
theorem insertChatIfAbsent_messages (st : Store) (j n : String) :
    (insertChatIfAbsent st j n).messages = st.messages := by
  unfold insertChatIfAbsent
  split_ifs <;> rfl

/-- Chats after `insertChatIfAbsent`: an old row, or a fresh row with a
NULL `last_message_time` for a jid with no previous row. -/
theorem insertChatIfAbsent_chats_cases (st : Store) (j n : String) {c : ChatRow}
    (hc : c ∈ (insertChatIfAbsent st j n).chats) :
    c ∈ st.chats ∨ (c.lastMessageTime = none ∧ ∀ c' ∈ st.chats, c'.jid ≠ c.jid) := by
  unfold insertChatIfAbsent at hc
  split_ifs at hc with h
  · exact Or.inl hc
  · rcases List.mem_append.mp hc with h1 | h2
    · exact Or.inl h1
    · have hco : c = ⟨j, some n, none⟩ := by simpa using h2
      subst hco
      refine Or.inr ⟨rfl, ?_⟩
      intro c' hc' hj
      apply h
      simp only [List.any_eq_true, decide_eq_true_eq]
      exact ⟨c', hc', hj⟩

/-- `insertChatIfAbsent` never removes a chat row. -/
theorem insertChatIfAbsent_jid_sup (st : Store) (j n : String) {c' : ChatRow}
    (hc' : c' ∈ st.chats) : c' ∈ (insertChatIfAbsent st j n).chats := by
  unfold insertChatIfAbsent
  split_ifs
  · exact hc'
  · exact List.mem_append_left _ hc'

/-- Chats after `updateChatName` keep their jid and `last_message_time`. -/
theorem updateChatName_chats_cases (st : Store) (j n : String) {c : ChatRow}
    (hc : c ∈ (updateChatName st j n).chats) :
    ∃ c' ∈ st.chats, c.jid = c'.jid ∧ c.lastMessageTime = c'.lastMessageTime := by
  unfold updateChatName at hc
  rcases List.mem_map.mp hc with ⟨c', hc', heq⟩
  refine ⟨c', hc', ?_⟩
  by_cases hcj : c'.jid = j
  · rw [if_pos hcj] at heq
    subst heq
    exact ⟨rfl, rfl⟩
  · rw [if_neg hcj] at heq
    subst heq
    exact ⟨rfl, rfl⟩

/-- Every chat jid survives `updateChatName`. -/
theorem updateChatName_jid_sup (st : Store) (j n : String) {c' : ChatRow}
    (hc' : c' ∈ st.chats) : ∃ c ∈ (updateChatName st j n).chats, c.jid = c'.jid := by
  refine ⟨if c'.jid = j then { c' with name := some n } else c', ?_, ?_⟩
  · exact List.mem_map_of_mem _ hc'
  · split_ifs <;> rfl

/-- `ensureSenderChat` leaves the message table unchanged. -/
theorem ensureSenderChat_messages (env : NameEnv) (st : Store) (u : String) :
    (ensureSenderChat env st u).messages = st.messages := by
  unfold ensureSenderChat
  split
  · split_ifs <;> rfl
  · exact insertChatIfAbsent_messages st _ _

/-- Chats after `ensureSenderChat`: either a row sharing jid and
`last_message_time` with an old row, or a fresh NULL-timestamped row whose
jid had no previous row. -/
theorem ensureSenderChat_chats_cases (env : NameEnv) (st : Store) (u : String)
    {c : ChatRow} (hc : c ∈ (ensureSenderChat env st u).chats) :
    (∃ c' ∈ st.chats, c.jid = c'.jid ∧ c.lastMessageTime = c'.lastMessageTime) ∨
    (c.lastMessageTime = none ∧ ∀ c' ∈ st.chats, c'.jid ≠ c.jid) := by
  unfold ensureSenderChat at hc
  split at hc
  · split_ifs at hc
    · exact Or.inl (updateChatName_chats_cases st _ _ hc)
    · exact Or.inl ⟨c, hc, rfl, rfl⟩
    · exact Or.inl ⟨c, hc, rfl, rfl⟩
  · rcases insertChatIfAbsent_chats_cases st _ _ hc with h1 | h2
    · exact Or.inl ⟨c, h1, rfl, rfl⟩
    · exact Or.inr h2

/-- Every chat jid survives `ensureSenderChat`. -/
theorem ensureSenderChat_jid_sup (env : NameEnv) (st : Store) (u : String)
    {c' : ChatRow} (hc' : c' ∈ st.chats) :
    ∃ c ∈ (ensureSenderChat env st u).chats, c.jid = c'.jid := by
  unfold ensureSenderChat
  split
  · split_ifs
    · exact updateChatName_jid_sup st _ _ hc'
    · exact ⟨c', hc', rfl⟩
    · exact ⟨c', hc', rfl⟩
  · exact ⟨c', insertChatIfAbsent_jid_sup st _ _ hc', rfl⟩

/-- `ensureSenderChat` preserves the no-orphan invariant. -/
theorem orphanFree_ensureSenderChat (env : NameEnv) (st : Store) (u : String)
    (h : orphanFree st) : orphanFree (ensureSenderChat env st u) := by
  intro m hm
  rw [ensureSenderChat_messages] at hm
  rcases h m hm with ⟨c0, hc0, hj0⟩
  rcases ensureSenderChat_jid_sup env st u hc0 with ⟨c, hc, hj⟩
  exact ⟨c, hc, hj.trans hj0⟩

/-- `ensureSenderChat` preserves the last-message-time invariant (under
no-orphan: a fresh per-sender chat row can have no stored messages). -/
theorem lastTimeInv_ensureSenderChat (env : NameEnv) (st : Store) (u : String)
    (hor : orphanFree st) (h : lastTimeInv st) :
    lastTimeInv (ensureSenderChat env st u) := by
  intro c hc m hm hj
  rw [ensureSenderChat_messages] at hm
  rcases ensureSenderChat_chats_cases env st u hc with ⟨c', hc', hjj, htt⟩ | ⟨hnone, hfresh⟩
  · rw [htt]
    exact h c' hc' m hm (hj.trans hjj)
  · exfalso
    rcases hor m hm with ⟨c0, hc0, hj0⟩
    exact hfresh c0 hc0 (hj0.trans hj)

/-- `ensureSenderChat` preserves a chat-time lower bound for a jid that
already has a row. -/
theorem chatCovers_ensureSenderChat (env : NameEnv) (st : Store) (u j : String)
    (T : Int) (hex : ∃ c ∈ st.chats, c.jid = j) (h : chatCovers st j T) :
    chatCovers (ensureSenderChat env st u) j T := by
  intro c hc hj
  rcases ensureSenderChat_chats_cases env st u hc with ⟨c', hc', hjj, htt⟩ | ⟨hnone, hfresh⟩
  · rw [htt]
    exact h c' hc' (hjj.symm.trans hj)
  · exfalso
    rcases hex with ⟨c1, hc1, hj1⟩
    exact hfresh c1 hc1 (hj1.trans hj.symm)

/-- `ensureSenderChat` preserves chat-row existence. -/
theorem chatExists_ensureSenderChat (env : NameEnv) (st : Store) (u j : String)
    (hex : ∃ c ∈ st.chats, c.jid = j) :
    ∃ c ∈ (ensureSenderChat env st u).chats, c.jid = j := by
  rcases hex with ⟨c1, hc1, hj1⟩
  rcases ensureSenderChat_jid_sup env st u hc1 with ⟨c, hc, hj⟩
  exact ⟨c, hc, hj.trans hj1⟩

/-- `insertOrReplaceChat` preserves the no-orphan invariant (the replaced
jid is re-inserted). -/
theorem orphanFree_insertOrReplaceChat (st : Store) (j : String)
    (n : Option String) (t : Option Int) (h : orphanFree st) :
    orphanFree (insertOrReplaceChat st j n t) := by
  intro m hm
  rcases h m hm with ⟨c, hc, hj⟩
  by_cases hcj : c.jid = j
  · refine ⟨⟨j, n, t⟩, List.mem_append_right _ (List.mem_singleton_self _), ?_⟩
    rw [← hcj] at *
    exact hj
  · refine ⟨c, List.mem_append_left _ (List.mem_filter.mpr ⟨hc, ?_⟩), hj⟩
    simpa using hcj

/-- `insertOrReplaceChat` with a timestamp bounding every stored message of
the chat preserves the last-message-time invariant. -/
theorem lastTimeInv_insertOrReplaceChat (st : Store) (j : String)
    (n : Option String) (T : Int) (h : lastTimeInv st)
    (hcov : ∀ m ∈ st.messages, m.chatJid = j → m.timestamp ≤ T) :
    lastTimeInv (insertOrReplaceChat st j n (some T)) := by
  intro c hc m hm hj
  rcases List.mem_append.mp hc with hcf | hcn
  · exact h c (List.mem_filter.mp hcf).1 m hm hj
  · have hceq : c = ⟨j, n, some T⟩ := by simpa using hcn
    subst hceq
    exact hcov m hm hj

/-- After `insertOrReplaceChat st j n (some T)`, every chat row for `j` is
the new row, so its time covers `T`. -/
theorem chatCovers_insertOrReplaceChat_self (st : Store) (j : String)
    (n : Option String) (T : Int) : chatCovers (insertOrReplaceChat st j n (some T)) j T := by
  intro c hc hj
  rcases List.mem_append.mp hc with hcf | hcn
  · exfalso
    have h2 := (List.mem_filter.mp hcf).2
    simp only [decide_eq_true_eq] at h2
    exact h2 hj
  · have hceq : c = ⟨j, n, some T⟩ := by simpa using hcn
    subst hceq
    exact le_refl T

/-- `insertOrReplaceChat` guarantees a row for its jid. -/
theorem chatExists_insertOrReplaceChat_self (st : Store) (j : String)
    (n : Option String) (t : Option Int) :
    ∃ c ∈ (insertOrReplaceChat st j n t).chats, c.jid = j :=
  ⟨⟨j, n, t⟩, List.mem_append_right _ (List.mem_singleton_self _), rfl⟩

/-- Messages after `insertOrReplaceMessage`: an old row, or the new row of
the given chat and timestamp. -/
theorem insertOrReplaceMessage_messages_cases (st : Store)
    (id j snd cn : String) (ts : Int) (fm : Bool) (md : MediaInfo) {m : MsgRow}
    (hm : m ∈ (insertOrReplaceMessage st id j snd cn ts fm md).messages) :
    m ∈ st.messages ∨ (m.chatJid = j ∧ m.timestamp = ts) := by
  rcases List.mem_append.mp hm with h1 | h2
  · exact Or.inl (List.mem_filter.mp h1).1
  · have hmeq : m = ⟨maxRowid (st.messages.filter
        (fun r => ¬(r.id = id ∧ r.chatJid = j))) + 1, id, j, snd, cn, ts, fm, md⟩ := by
      simpa using h2
    subst hmeq
    exact Or.inr ⟨rfl, rfl⟩

/-- `insertOrReplaceMessage` preserves the no-orphan invariant when the
target chat row exists. -/
theorem orphanFree_insertOrReplaceMessage (st : Store) (id j snd cn : String)
    (ts : Int) (fm : Bool) (md : MediaInfo) (h : orphanFree st)
    (hex : ∃ c ∈ st.chats, c.jid = j) :
    orphanFree (insertOrReplaceMessage st id j snd cn ts fm md) := by
  intro m hm
  rcases insertOrReplaceMessage_messages_cases st id j snd cn ts fm md hm with h1 | ⟨hj, -⟩
  · exact h m h1
  · rcases hex with ⟨c, hc, hjc⟩
    exact ⟨c, hc, hjc.trans hj.symm⟩

/-- `insertOrReplaceMessage` preserves the last-message-time invariant when
every chat row of the target jid already covers the new timestamp. -/
theorem lastTimeInv_insertOrReplaceMessage (st : Store) (id j snd cn : String)
    (ts : Int) (fm : Bool) (md : MediaInfo) (h : lastTimeInv st)
    (hcov : chatCovers st j ts) :
    lastTimeInv (insertOrReplaceMessage st id j snd cn ts fm md) := by
  intro c hc m hm hj
  rcases insertOrReplaceMessage_messages_cases st id j snd cn ts fm md hm with h1 | ⟨hjm, hts⟩
  · exact h c hc m h1 hj
  · rw [hts]
    exact hcov c hc (hj.symm.trans hjm)

/-- Steps 4–5 of the real-time handler preserve both invariants, given that
the event timestamp bounds every stored message of its chat. -/
theorem handleMessageStore_preserves (env : NameEnv) (st1 : Store) (ev : MsgEvent)
    (ho : orphanFree st1) (hinv : lastTimeInv st1)
    (hbound : ∀ m ∈ st1.messages, m.chatJid = ev.chat.str → m.timestamp ≤ ev.ts) :
    orphanFree (handleMessageStore env st1 ev) ∧
      lastTimeInv (handleMessageStore env st1 ev) := by
  unfold handleMessageStore
  constructor
  · exact orphanFree_insertOrReplaceMessage _ _ _ _ _ _ _ _
      (orphanFree_insertOrReplaceChat st1 _ _ _ ho)
      (chatExists_insertOrReplaceChat_self st1 _ _ _)
  · exact lastTimeInv_insertOrReplaceMessage _ _ _ _ _ _ _ _
      (lastTimeInv_insertOrReplaceChat st1 _ _ _ hinv hbound)
      (chatCovers_insertOrReplaceChat_self st1 _ _ _)

/-- The real-time handler preserves both invariants for in-order events. -/
theorem handleMessage_preserves (env : NameEnv) (st : Store) (ev : MsgEvent)
    (ho : orphanFree st) (hinv : lastTimeInv st)
    (hbound : ∀ m ∈ st.messages, m.chatJid = ev.chat.str → m.timestamp ≤ ev.ts) :
    orphanFree (handleMessage env st ev) ∧ lastTimeInv (handleMessage env st ev) := by
  unfold handleMessage
  split_ifs with hskip hsu
  · exact ⟨ho, hinv⟩
  · refine handleMessageStore_preserves env _ ev
      (orphanFree_ensureSenderChat env st _ ho)
      (lastTimeInv_ensureSenderChat env st _ ho hinv) ?_
    intro m hm hj
    rw [ensureSenderChat_messages] at hm
    exact hbound m hm hj
  · exact handleMessageStore_preserves env st ev ho hinv hbound

/-- The per-sender step of the history path preserves the four running
facts of the conversation fold. -/
theorem histSenderStep_preserves (env : NameEnv) (st : Store) (fm : Bool)
    (snd j : String) (T : Int) (ho : orphanFree st) (hinv : lastTimeInv st)
    (hcov : chatCovers st j T) (hex : ∃ c ∈ st.chats, c.jid = j) :
    orphanFree (histSenderStep env st fm snd) ∧
    lastTimeInv (histSenderStep env st fm snd) ∧
    chatCovers (histSenderStep env st fm snd) j T ∧
    (∃ c ∈ (histSenderStep env st fm snd).chats, c.jid = j) ∧
    (histSenderStep env st fm snd).messages = st.messages := by
  unfold histSenderStep
  split_ifs
  · exact ⟨orphanFree_ensureSenderChat env st snd ho,
      lastTimeInv_ensureSenderChat env st snd ho hinv,
      chatCovers_ensureSenderChat env st snd j T hex hcov,
      chatExists_ensureSenderChat env st snd j hex,
      ensureSenderChat_messages env st snd⟩
  · exact ⟨ho, hinv, hcov, hex, rfl⟩

/-- One history message preserves the running facts, given the
conversation-level timestamp bound. -/
theorem processHistMsg_preserves (env : NameEnv) (j u : String) (T : Int)
    (st : Store) (e : Option HistMsg) (ho : orphanFree st) (hinv : lastTimeInv st)
    (hcov : chatCovers st j T) (hex : ∃ c ∈ st.chats, c.jid = j)
    (hts : histTsLe e T) :
    orphanFree (processHistMsg env j u st e) ∧
    lastTimeInv (processHistMsg env j u st e) ∧
    chatCovers (processHistMsg env j u st e) j T ∧
    (∃ c ∈ (processHistMsg env j u st e).chats, c.jid = j) ∧
    (∀ m ∈ (processHistMsg env j u st e).messages, m ∈ st.messages ∨ m.chatJid = j) := by
  cases e with
  | none => exact ⟨ho, hinv, hcov, hex, fun m hm => Or.inl hm⟩
  | some m =>
    simp only [processHistMsg]
    split_ifs with hskip
    · exact ⟨ho, hinv, hcov, hex, fun m hm => Or.inl hm⟩
    · unfold processHistMsgStore
      obtain ⟨hso, hsi, hsc, hse, hsm⟩ := histSenderStep_preserves env st (histFromMe m)
        (normalizeSender env (histRawSender env u m)) j T ho hinv hcov hex
      split_ifs with hts0
      · exact ⟨hso, hsi, hsc, hse, fun m2 hm2 => Or.inl (hsm ▸ hm2)⟩
      · have hmts : m.ts ≤ T := hts
        refine ⟨orphanFree_insertOrReplaceMessage _ _ _ _ _ _ _ _ hso hse,
          lastTimeInv_insertOrReplaceMessage _ _ _ _ _ _ _ _ hsi ?_,
          ?_, hse, ?_⟩
        · intro c hc hj
          exact tsCovered_mono (hsc c hc hj) hmts
        · intro c hc hj
          exact hsc c hc hj
        · intro m2 hm2
          rcases insertOrReplaceMessage_messages_cases _ _ _ _ _ _ _ _ hm2 with h1 | ⟨hj2, -⟩
          · exact Or.inl (hsm ▸ h1)
          · exact Or.inr hj2

/-- Folding the message list of one conversation preserves the invariants
and only adds messages of that chat. -/
theorem foldl_histMsgs_preserves (env : NameEnv) (j u : String) (T : Int)
    (msgs : List (Option HistMsg)) (st : Store) (ho : orphanFree st)
    (hinv : lastTimeInv st) (hcov : chatCovers st j T)
    (hex : ∃ c ∈ st.chats, c.jid = j) (hall : ∀ e ∈ msgs, histTsLe e T) :
    orphanFree (msgs.foldl (processHistMsg env j u) st) ∧
    lastTimeInv (msgs.foldl (processHistMsg env j u) st) ∧
    (∀ m ∈ (msgs.foldl (processHistMsg env j u) st).messages,
      m ∈ st.messages ∨ m.chatJid = j) := by
  induction msgs generalizing st with
  | nil => exact ⟨ho, hinv, fun m hm => Or.inl hm⟩
  | cons e es ih =>
    obtain ⟨h1, h2, h3, h4, h5⟩ := processHistMsg_preserves env j u T st e ho hinv hcov hex
      (hall e (List.mem_cons_self e es))
    obtain ⟨r1, r2, r3⟩ := ih (processHistMsg env j u st e) h1 h2 h3 h4
      (fun e' he' => hall e' (List.mem_cons_of_mem e he'))
    refine ⟨r1, r2, ?_⟩
    intro m hm
    rcases r3 m hm with hold | hnew
    · exact h5 m hold
    · exact Or.inr hnew

/-- One conversation preserves the invariants when ordered, and only adds
messages of its own chat. -/
theorem processConv_preserves (env : NameEnv) (st : Store) (conv : HistConv)
    (ho : orphanFree st) (hinv : lastTimeInv st) (hord : convOrdered st conv) :
    orphanFree (processConv env st conv) ∧ lastTimeInv (processConv env st conv) ∧
    (∀ m ∈ (processConv env st conv).messages,
      m ∈ st.messages ∨ m.chatJid = conv.rawJid) := by
  cases hp : env.parseJid conv.rawJid with
  | none =>
    simp only [processConv, hp]
    exact ⟨ho, hinv, fun m hm => Or.inl hm⟩
  | some jid =>
    simp only [processConv, hp]
    unfold convOrdered at hord
    rcases hh : conv.messages.head? with _ | (_ | m0)
    · rw [hh] at hord
      exact hord.elim
    · rw [hh] at hord
      exact hord.elim
    · rw [hh] at hord
      obtain ⟨hts0, hallts, hbound⟩ := hord
      have hstep : convChatStep env st conv jid =
          insertOrReplaceChat st conv.rawJid
            (some (getChatName env st jid conv.rawJid (some conv.meta) ""))
            (some m0.ts) := by
        unfold convChatStep
        simp only [hh]
        rw [if_pos hts0]
      rw [hstep]
      obtain ⟨f1, f2, f3⟩ := foldl_histMsgs_preserves env conv.rawJid jid.user m0.ts
        conv.messages
        (insertOrReplaceChat st conv.rawJid
          (some (getChatName env st jid conv.rawJid (some conv.meta) "")) (some m0.ts))
        (orphanFree_insertOrReplaceChat st _ _ _ ho)
        (lastTimeInv_insertOrReplaceChat st _ _ _ hinv hbound)
        (chatCovers_insertOrReplaceChat_self st _ _ _)
        (chatExists_insertOrReplaceChat_self st _ _ _)
        hallts
      refine ⟨f1, f2, ?_⟩
      intro m hm
      rcases f3 m hm with hold | hnew
      · exact Or.inl hold
      · exact Or.inr hnew

/-- The bulk history handler preserves both invariants when every
conversation is ordered and conversations target pairwise distinct chats. -/
theorem handleHistorySync_preserves (env : NameEnv) (convs : List HistConv)
    (st : Store) (ho : orphanFree st) (hinv : lastTimeInv st)
    (hords : ∀ c ∈ convs, convOrdered st c)
    (hdisj : convs.Pairwise (fun a b => a.rawJid ≠ b.rawJid)) :
    orphanFree (handleHistorySync env st convs) ∧
    lastTimeInv (handleHistorySync env st convs) ∧
    (∀ m ∈ (handleHistorySync env st convs).messages,
      m ∈ st.messages ∨ ∃ c ∈ convs, m.chatJid = c.rawJid) := by
  induction convs generalizing st with
  | nil => exact ⟨ho, hinv, fun m hm => Or.inl hm⟩
  | cons cv cs ih =>
    obtain ⟨p1, p2, p3⟩ := processConv_preserves env st cv ho hinv
      (hords cv (List.mem_cons_self cv cs))
    rcases List.pairwise_cons.mp hdisj with ⟨hhead, htail⟩
    have hords1 : ∀ c ∈ cs, convOrdered (processConv env st cv) c := by
      intro c hc
      have h0 := hords c (List.mem_cons_of_mem cv hc)
      unfold convOrdered at h0 ⊢
      rcases hh : c.messages.head? with _ | (_ | m0) <;> rw [hh] at h0
      · exact h0
      · exact h0
      · obtain ⟨a, b, hbound⟩ := h0
        refine ⟨a, b, ?_⟩
        intro m hm hj
        rcases p3 m hm with hold | hnew
        · exact hbound m hold hj
        · exact absurd (hnew.symm.trans hj) (hhead c hc)
    obtain ⟨r1, r2, r3⟩ := ih (processConv env st cv) p1 p2 hords1 htail
    refine ⟨r1, r2, ?_⟩
    intro m hm
    rcases r3 m hm with h1 | ⟨c, hc, hj⟩
    · rcases p3 m h1 with h2 | h3
      · exact Or.inl h2
      · exact Or.inr ⟨cv, List.mem_cons_self cv cs, h3⟩
    · exact Or.inr ⟨c, List.mem_cons_of_mem cv hc, hj⟩

/-- C9 (counterexample): two real-time events in the same chat arriving out
of timestamp order leave `last_message_time = 100` while a stored message
of the chat has timestamp 200, violating the invariant; likewise a
history-sync conversation whose first listed message (timestamp 100) is
not the latest (timestamp 200) sets `last_message_time = 100` and violates
it. -/
theorem c9_counterexample :
    (¬ lastTimeInv (handleMessage syncEnv (handleMessage syncEnv Store.empty evTs200)
        evTs100)) ∧
    chatLastTime (handleMessage syncEnv (handleMessage syncEnv Store.empty evTs200)
        evTs100) "123@s.whatsapp.net" = some (some 100) ∧
    (∃ m ∈ (handleMessage syncEnv (handleMessage syncEnv Store.empty evTs200)
        evTs100).messages, m.chatJid = "123@s.whatsapp.net" ∧ m.timestamp = 200) ∧
    (¬ lastTimeInv (handleHistorySync histEnv Store.empty [convNewestSecond])) ∧
    chatLastTime (handleHistorySync histEnv Store.empty [convNewestSecond]) "A@g.us" =
      some (some 100) := by
  decide

/-- C9 (amended): the invariant `last_message_time ≥ max stored message
timestamp per chat` (together with no-orphan) is preserved by a real-time
handler run whose event timestamp is at least every stored timestamp of its
chat, and by a history-sync handler run in which every conversation lists
first a message with a nonzero timestamp that bounds the conversation's
messages and the chat's stored messages, with conversations targeting
pairwise distinct chats. -/
theorem c9_last_time_preservation (env : NameEnv) (st : Store) (ev : MsgEvent)
    (convs : List HistConv) :
    (orphanFree st → lastTimeInv st →
      (∀ m ∈ st.messages, m.chatJid = ev.chat.str → m.timestamp ≤ ev.ts) →
      orphanFree (handleMessage env st ev) ∧ lastTimeInv (handleMessage env st ev)) ∧
    (orphanFree st → lastTimeInv st → (∀ c ∈ convs, convOrdered st c) →
      convs.Pairwise (fun a b => a.rawJid ≠ b.rawJid) →
      orphanFree (handleHistorySync env st convs) ∧
        lastTimeInv (handleHistorySync env st convs)) := by
  constructor
  · intro ho hinv hbound
    exact handleMessage_preserves env st ev ho hinv hbound
  · intro ho hinv hords hdisj
    obtain ⟨h1, h2, -⟩ := handleHistorySync_preserves env convs st ho hinv hords hdisj
    exact ⟨h1, h2⟩

/-- C9 (witness): instantiation at the empty store, a single real-time
event, and the empty conversation list. -/
theorem c9_witness :
    (orphanFree (handleMessage syncEnv Store.empty replayEvent) ∧
      lastTimeInv (handleMessage syncEnv Store.empty replayEvent)) ∧
    (orphanFree (handleHistorySync syncEnv Store.empty []) ∧
      lastTimeInv (handleHistorySync syncEnv Store.empty [])) :=
  ⟨(c9_last_time_preservation syncEnv Store.empty replayEvent []).1 (by decide)
      (by decide) (by decide),
   (c9_last_time_preservation syncEnv Store.empty replayEvent []).2 (by decide)
      (by decide) (by decide) (by decide)⟩

end WaMcp
